import Mathlib

/-!
Shallow embedding of the CACFP meal-count workbook parsers.

The repository contains two parsing variants of `parse_sheet`:
a "fuzzy" one (the meal-count debugger app) and a "strict" one
(the monitoring/report app), plus the batch drivers `build_all` and
`build_report`.  Pandas cell values are modelled by the `Cell` type
(absent = NaN/None, numbers, booleans, strings); strings are modelled
as lists of characters.  Out-of-range cell access is modelled as an
absent cell.
-/

/-- Characters of a Python string. -/
abbrev Str := List Char

/-- Character-list form of a Lean string literal. -/
def toL (s : String) : Str := s.toList

/-- An untyped spreadsheet cell: absent (NaN/None), numeric, boolean or text. -/
inductive Cell where
  | absent
  | num (n : Int)
  | boolv (b : Bool)
  | str (s : Str)
deriving DecidableEq

/-- A worksheet grid: a list of rows of cells. -/
abbrev Grid := List (List Cell)

/-- Number of rows (`df.shape[0]`). -/
def height (g : Grid) : Nat := g.length

/-- Number of columns (`df.shape[1]`); grids are used rectangularly. -/
def width (g : Grid) : Nat := (g.headD []).length

/-- Row `r` of the grid (`df.iloc[r]`). -/
def rowAt (g : Grid) (r : Nat) : List Cell := g.getD r []

/-- Cell at row `r`, column `c` (`df.iat[r, c]`). -/
def cellAt (g : Grid) (r c : Nat) : Cell := (g.getD r []).getD c .absent

/-- Source `pd.isna` on a cell value. -/
def isNA : Cell → Bool
  | .absent => true
  | _ => false

/-- Python whitespace test used by `str.strip()`. -/
def isWs (c : Char) : Bool := c.isWhitespace

/-- Python `str.lstrip()`. -/
def pyStripLeft (s : Str) : Str := s.dropWhile isWs

/-- Python `str.rstrip()`. -/
def pyStripRight (s : Str) : Str := (s.reverse.dropWhile isWs).reverse

/-- Python `str.strip()`. -/
def pyStrip (s : Str) : Str := pyStripRight (pyStripLeft s)

/-- Characters kept by the source regex `[^a-z0-9 ]+` substitution in `norm`. -/
def keepChar (c : Char) : Bool :=
  (decide ('a' ≤ c) && decide (c ≤ 'z')) ||
  (decide ('0' ≤ c) && decide (c ≤ '9')) ||
  decide (c = ' ')

/-- Source `norm`: `str(s).strip().lower()` then drop every character that is
not a lowercase letter, digit or space. -/
def normTok (s : Str) : Str := ((pyStrip s).map Char.toLower).filter keepChar

/-- Substring test: Python `sub in t`. -/
def containsSub (sub : Str) : Str → Bool
  | [] => sub.isPrefixOf ([] : Str)
  | c :: rest => sub.isPrefixOf (c :: rest) || containsSub sub rest

/-- The four label classes of the fuzzy classifier. -/
inductive MealLabel where
  | At
  | B
  | L
  | P
deriving DecidableEq

/-- Attendance condition of `meal_label_from_token` (source line:
`t.startswith("at") or t.startswith("att") or "attend" in t`). -/
def attRule (t : Str) : Bool :=
  (toL "at").isPrefixOf t || (toL "att").isPrefixOf t || containsSub (toL "attend") t

/-- Breakfast condition of `meal_label_from_token`. -/
def breakfastRule (t : Str) : Bool :=
  [toL "b", toL "br", toL "bf", toL "breakfast", toL "am snack", toL "amsnack"].contains t ||
  (toL "break").isPrefixOf t || (toL "brk").isPrefixOf t

/-- Lunch condition of `meal_label_from_token`. -/
def lunchRule (t : Str) : Bool :=
  [toL "l", toL "ln", toL "lunch"].contains t || (toL "lun").isPrefixOf t

/-- PM-snack condition of `meal_label_from_token` (the Python `or`/`and`
precedence groups the final conjunction: `t in [...] or ("pm" in t and "snack" in t)`). -/
def pmSnackRule (t : Str) : Bool :=
  [toL "p", toL "pm", toL "pmsnack", toL "snack pm", toL "snackpm",
   toL "pm snack", toL "pmmeal", toL "snack"].contains t ||
  (containsSub (toL "pm") t && containsSub (toL "snack") t)

/-- Source `meal_label_from_token`: normalize, then the if-chain
attendance / breakfast / lunch / pm-snack, first match wins. -/
def meal_label_from_token (s : Str) : Option MealLabel :=
  let t := normTok s
  if attRule t then some .At
  else if breakfastRule t then some .B
  else if lunchRule t then some .L
  else if pmSnackRule t then some .P
  else none

/-- Spec-side classifier: a fixed precedence table, first matching class wins. -/
def precTable : List ((Str → Bool) × MealLabel) :=
  [(attRule, .At), (breakfastRule, .B), (lunchRule, .L), (pmSnackRule, .P)]

/-- Spec-side classifier: scan the precedence table for the first matching rule. -/
def mealClassSpec (s : Str) : Option MealLabel :=
  (precTable.find? (fun pr => pr.1 (normTok s))).map (·.2)

/-- Source `nonempty_mark` (permissive mark detector): NaN → false,
strings → non-blank after strip, every other value (number/boolean) → true. -/
def nonempty_mark : Cell → Bool
  | .absent => false
  | .str s => !(pyStrip s).isEmpty
  | _ => true

/-- Source `is_day_token`: strings whose normalized form starts with a
weekday prefix; everything else is not a day token. -/
def dayWords : List Str :=
  [toL "mon", toL "tue", toL "wed", toL "thu", toL "fri",
   toL "monday", toL "tuesday", toL "wednesday", toL "thursday", toL "friday"]

/-- Source `is_day_token`. -/
def is_day_token : Cell → Bool
  | .str s => dayWords.any (fun d => d.isPrefixOf (normTok s))
  | _ => false

/-- Bounded linear search: first `r` in `[lo, lo + fuel)` with `p r = true`.
Models the Python `for r in range(lo, hi)` search loops. -/
def findFrom (p : Nat → Bool) : Nat → Nat → Option Nat
  | _, 0 => none
  | lo, Nat.succ fuel => if p lo then some lo else findFrom p (lo + 1) fuel

/-- Day-row condition of the fuzzy variant: the row holds at least 2 day tokens. -/
def fuzzyDayRowPred (g : Grid) (r : Nat) : Bool :=
  decide (2 ≤ (rowAt g r).countP is_day_token)

/-- Fuzzy variant, step 1: `for r in range(min(80, df.shape[0]))`, first row
with at least two day tokens. -/
def findDayRowFuzzy (g : Grid) : Option Nat :=
  findFrom (fuzzyDayRowPred g) 0 (min 80 (height g))

/-- Label-row condition of the fuzzy variant: some cell is a non-blank string
or is not NaN (so in fact: some cell is not NaN). -/
def labelRowPred (g : Grid) (r : Nat) : Bool :=
  (rowAt g r).any fun x =>
    (match x with | .str s => !(pyStrip s).isEmpty | _ => false) || !(isNA x)

/-- Fuzzy variant, step 2: label row = first non-empty row in
`range(day_row+1, min(day_row+6, df.shape[0]))`. -/
def findLabelRow (g : Grid) (dayRow : Nat) : Option Nat :=
  findFrom (labelRowPred g) (dayRow + 1) (min (dayRow + 6) (height g) - (dayRow + 1))

/-- Canonical short day name in the fuzzy variant:
`v.strip().split()[0].rstrip('.')`. -/
def shortDay (s : Str) : Str :=
  ((((pyStrip s).takeWhile (fun c => !isWs c)).reverse.dropWhile (fun c => c = '.')).reverse)

/-- Fuzzy variant, step 3: the `(column, short day name)` pairs found on the
day row, scanning columns left to right. -/
def dayStartsRaw (g : Grid) (dayRow : Nat) : List (Nat × Str) :=
  (List.range (width g)).filterMap fun c =>
    match cellAt g dayRow c with
    | .str s => if is_day_token (.str s) then some (c, shortDay s) else none
    | _ => none

/-- Boolean lexicographic order on character lists (used only to model
Python's tuple sort; day-start columns are pairwise distinct, so the
string component never decides an order). -/
def strLtB : Str → Str → Bool
  | [], [] => false
  | [], _ :: _ => true
  | _ :: _, [] => false
  | a :: as, b :: bs => decide (a < b) || (decide (a = b) && strLtB as bs)

/-- Python tuple comparison `(c, short) <= (c', short')`. -/
def pairLe (x y : Nat × Str) : Bool :=
  decide (x.1 < y.1) || (decide (x.1 = y.1) && !(strLtB y.2 x.2))

/-- Stable insertion into a sorted list (model of Python's list sort). -/
def sortedInsert (le : α → α → Bool) (x : α) : List α → List α
  | [] => [x]
  | y :: ys => if le x y then x :: y :: ys else y :: sortedInsert le x ys

/-- Insertion sort (model of Python's list sort). -/
def insSort (le : α → α → Bool) : List α → List α
  | [] => []
  | x :: xs => sortedInsert le x (insSort le xs)

/-- Fuzzy variant: `day_starts.sort()`. -/
def dayStartsSorted (g : Grid) (dayRow : Nat) : List (Nat × Str) :=
  insSort pairLe (dayStartsRaw g dayRow)

/-- Half-open day blocks from the sorted day-start columns: each start column
is paired with the next start column, the last extends to the grid width
(`end = day_starts[i+1][0] if i+1 < len(day_starts) else df.shape[1]`). -/
def spans (w : Nat) : List (Nat × Str) → List ((Nat × Nat) × Str)
  | [] => []
  | (c, d) :: rest =>
    match rest with
    | [] => [((c, w), d)]
    | (c2, _) :: _ => ((c, c2), d) :: spans w rest

/-- Python `str()` of a cell value, used when a non-NaN cell reaches the
classifier (`pd.isna` guards keep `absent` out; numbers print decimally). -/
def pyStrCell : Cell → Str
  | .absent => toL "nan"
  | .num n => toL (toString n)
  | .boolv b => if b then toL "True" else toL "False"
  | .str s => s

/-- Fuzzy variant, step 4 inner loop: label cells of one block, columns
`[c, e)` of the label row, classified by `meal_label_from_token`. -/
def labelsIn (g : Grid) (labelRow c e : Nat) : List (Nat × MealLabel) :=
  ((List.range (e - c)).map (c + ·)).filterMap fun cc =>
    let val := cellAt g labelRow cc
    if (match val with | .str _ => true | _ => false) || !(isNA val) then
      match meal_label_from_token (pyStrCell val) with
      | some ml => some (cc, ml)
      | none => none
    else none

/-- Python tuple-key sort `sorted(labels, key=lambda x: x[0])`. -/
def leFst (x y : Nat × MealLabel) : Bool := decide (x.1 ≤ y.1)

/-- Python dict assignment `m[k] = v`: replace in place if the key exists,
else append (insertion order preserved). -/
def dictUpsert (m : List (Str × α)) (k : Str) (v : α) : List (Str × α) :=
  if m.any (fun p => decide (p.1 = k)) then
    m.map (fun p => if p.1 = k then (k, v) else p)
  else m ++ [(k, v)]

/-- First-entry lookup in the association-list model of a Python dict. -/
def dictLookup (m : List (Str × α)) (k : Str) : Option α :=
  (m.find? (fun p => decide (p.1 = k))).map (·.2)

/-- Sorted labels of one block (`sorted(labels, key=lambda x: x[0])`). -/
def blockLabels (g : Grid) (labelRow : Nat) (blk : (Nat × Nat) × Str) : List (Nat × MealLabel) :=
  insSort leFst (labelsIn g labelRow blk.1.1 blk.1.2)

/-- Fuzzy variant, step 4: `blocks` dict, keyed by the canonical day name,
skipping blocks with no resolved labels. -/
def blocksOf (g : Grid) (dayRow labelRow : Nat) : List (Str × List (Nat × MealLabel)) :=
  (spans (width g) (dayStartsSorted g dayRow)).foldl
    (fun acc blk =>
      if (blockLabels g labelRow blk).isEmpty then acc
      else dictUpsert acc blk.2 (blockLabels g labelRow blk))
    []

/-- Fuzzy variant, step 5: first row in `range(label_row+1, min(label_row+200, h))`
whose column 1 holds a non-blank string. -/
def findStartRowFuzzy (g : Grid) (labelRow : Nat) : Option Nat :=
  findFrom
    (fun r => match cellAt g r 1 with | .str s => !(pyStrip s).isEmpty | _ => false)
    (labelRow + 1) (min (labelRow + 200) (height g) - (labelRow + 1))

/-- Mostly-empty-row condition: at least 8 of the first 10 columns are NaN. -/
def mostlyEmpty (g : Grid) (r : Nat) : Bool :=
  decide (8 ≤ ((rowAt g r).take 10).countP isNA)

/-- Both variants, step 6: `end_row` scan.  `end_row` starts at `start_row`;
the first mostly-empty row `r` at or after `start_row` sets it to `r - 1`;
afterwards `if end_row < start_row` (an `Int` comparison in Python) the
fallback `min(start_row + bound, df.shape[0] - 1)` applies.  If no
mostly-empty row exists, `end_row` keeps its initial value `start_row`. -/
def findEndRow (g : Grid) (startRow bound : Nat) : Nat :=
  match findFrom (fun r => mostlyEmpty g r) startRow (height g - startRow) with
  | some r =>
    if (r : Int) - 1 < (startRow : Int) then min (startRow + bound) (height g - 1)
    else r - 1
  | none => startRow

/-- The inclusive student row range `[s, e]` (`df.iloc[s:e+1]`). -/
def rowIdxs (s e : Nat) : List Nat := (List.range (e + 1 - s)).map (s + ·)

/-- Marked-cell count of one column over the student rows (fuzzy mark rule). -/
def countMarks (g : Grid) (s e col : Nat) : Nat :=
  (rowIdxs s e).countP fun r => nonempty_mark (cellAt g r col)

/-- Columns of a block labelled Attendance (`[col for col, lab in cols if lab == "At"]`). -/
def attColsOf (cols : List (Nat × MealLabel)) : List Nat :=
  cols.filterMap fun p => if p.2 = .At then some p.1 else none

/-- Columns of a block labelled with a meal (`lab in ["B","L","P"]`). -/
def mealColsOf (cols : List (Nat × MealLabel)) : List Nat :=
  cols.filterMap fun p => if p.2 = .B ∨ p.2 = .L ∨ p.2 = .P then some p.1 else none

/-- Count of student rows where any of the given meal columns is marked
(`applymap(nonempty_mark).any(axis=1).sum()`). -/
def anyMealCount (g : Grid) (s e : Nat) (mcols : List Nat) : Nat :=
  (rowIdxs s e).countP fun r => mcols.any fun c => nonempty_mark (cellAt g r c)

/-- Fuzzy variant, step 7 attendance: marks in the first Attendance column
(0 if there is none); if that count is 0 and `assume_attendance_if_any_meal`
is enabled and the block has meal columns, infer it as the any-meal row count. -/
def attPresent (g : Grid) (s e : Nat) (cols : List (Nat × MealLabel)) (flag : Bool) : Nat :=
  let base := match attColsOf cols with
    | [] => 0
    | a :: _ => countMarks g s e a
  if base = 0 ∧ flag = true then
    match mealColsOf cols with
    | [] => base
    | m :: ms => anyMealCount g s e (m :: ms)
  else base

/-- One `(Day, Meal, MarkedCount, AttendanceMarked)` record. -/
structure DayRec where
  day : Str
  meal : MealLabel
  marked : Nat
  att : Nat
deriving DecidableEq

/-- Fuzzy variant, step 7: one record per meal-labelled column of the block,
all carrying the block's single attendance figure. -/
def blockRecords (g : Grid) (s e : Nat) (day : Str)
    (cols : List (Nat × MealLabel)) (flag : Bool) : List DayRec :=
  cols.filterMap fun p =>
    if p.2 = .B ∨ p.2 = .L ∨ p.2 = .P then
      some ⟨day, p.2, countMarks g s e p.1, attPresent g s e cols flag⟩
    else none

/-- Source `parse_sheet` of the debugger app (fuzzy variant), returning the
extracted records or the human-readable failure reason.  The `info` dict and
the week-start scrape (which feed only the debug display) are not modelled. -/
def parse_sheet_fuzzy (flag : Bool) (g : Grid) : Except Str (List DayRec) :=
  match findDayRowFuzzy g with
  | none => .error (toL "No day row found")
  | some dayRow =>
    match findLabelRow g dayRow with
    | none => .error (toL "No label row found after day row")
    | some labelRow =>
      if (dayStartsSorted g dayRow).isEmpty then
        .error (toL "Could not locate day start columns")
      else
        let blocks := blocksOf g dayRow labelRow
        if blocks.isEmpty then
          .error (toL "Found day row but no meal/attendance labels underneath")
        else
          match findStartRowFuzzy g labelRow with
          | none => .error (toL "No student rows detected")
          | some startRow =>
            let endRow := findEndRow g startRow 60
            .ok (blocks.flatMap fun b => blockRecords g startRow endRow b.1 b.2 flag)

/-- A record of `build_all`, tagged with its sheet name. -/
structure NamedRec where
  sheet : Str
  drec : DayRec
deriving DecidableEq

/-- A `Debug_Log` entry of `build_all` (the `info` payload of OK entries is
not modelled; ERROR entries carry the failure reason). -/
inductive DebugEntry where
  | okE (sheet : Str)
  | errE (sheet : Str) (detail : Str)
deriving DecidableEq

/-- Source `build_all`: loop over the sheets, recording a debug entry per
sheet and accumulating the records of successfully parsed sheets. -/
def build_all (flag : Bool) (sheets : List (Str × Grid)) : List NamedRec × List DebugEntry :=
  sheets.foldl
    (fun acc sg =>
      match parse_sheet_fuzzy flag sg.2 with
      | .error e => (acc.1, acc.2 ++ [.errE sg.1 e])
      | .ok rs => (acc.1 ++ rs.map (fun r => ⟨sg.1, r⟩), acc.2 ++ [.okE sg.1]))
    ([], [])

/-- Source `_safe_str`: `str(x)` with NaN mapped to `""`. -/
def safeStr : Cell → Str
  | .absent => []
  | c => pyStrCell c

/-- Strict variant: `x.strip().endswith(".")` on a string cell; other cells fail. -/
def strictDayCell : Cell → Bool
  | .str s => (pyStrip s).getLast? = some '.'
  | _ => false

/-- Strict variant day-row condition: some cell of the row is a string whose
stripped value ends with a period. -/
def strictDayRowPred (g : Grid) (r : Nat) : Bool :=
  (rowAt g r).any strictDayCell

/-- Strict variant, day-row scan: `for r in range(8, min(60, df.shape[0]))`. -/
def findDayRowStrict (g : Grid) : Option Nat :=
  findFrom (strictDayRowPred g) 8 (min 60 (height g) - 8)

/-- Strict variant day name: `day.strip().rstrip(".")`. -/
def strictShort (s : Str) : Str :=
  ((pyStrip s).reverse.dropWhile (fun c => c = '.')).reverse

/-- Strict variant day starts on the day row. -/
def dayStartsStrictRaw (g : Grid) (dayRow : Nat) : List (Nat × Str) :=
  (List.range (width g)).filterMap fun c =>
    match cellAt g dayRow c with
    | .str s => if (pyStrip s).getLast? = some '.' then some (c, strictShort s) else none
    | _ => none

/-- Strict variant: `sorted(day_starts)`. -/
def dayStartsStrict (g : Grid) (dayRow : Nat) : List (Nat × Str) :=
  insSort pairLe (dayStartsStrictRaw g dayRow)

/-- Strict variant label cell: exact trimmed match against `["At","B","L","P"]`. -/
def strictLabelOf : Cell → Option MealLabel
  | .str s =>
    if pyStrip s = toL "At" then some .At
    else if pyStrip s = toL "B" then some .B
    else if pyStrip s = toL "L" then some .L
    else if pyStrip s = toL "P" then some .P
    else none
  | _ => none

/-- Strict variant: label cells of one block on the label row. -/
def strictLabelsIn (g : Grid) (labelRow c e : Nat) : List (Nat × MealLabel) :=
  ((List.range (e - c)).map (c + ·)).filterMap fun cc =>
    match strictLabelOf (cellAt g labelRow cc) with
    | some ml => some (cc, ml)
    | none => none

/-- Sorted strict labels of one block. -/
def blockLabelsStrict (g : Grid) (labelRow : Nat) (blk : (Nat × Nat) × Str) : List (Nat × MealLabel) :=
  insSort leFst (strictLabelsIn g labelRow blk.1.1 blk.1.2)

/-- Strict variant `blocks` dict (same keyed-by-day-name overwrite semantics). -/
def blocksStrict (g : Grid) (dayRow labelRow : Nat) : List (Str × List (Nat × MealLabel)) :=
  (spans (width g) (dayStartsStrict g dayRow)).foldl
    (fun acc blk =>
      if (blockLabelsStrict g labelRow blk).isEmpty then acc
      else dictUpsert acc blk.2 (blockLabelsStrict g labelRow blk))
    []

/-- Strict variant student-row condition: numeric column 0 (Python counts
`bool` as `int`, so booleans qualify) and a non-blank string in column 1. -/
def strictStartPred (g : Grid) (r : Nat) : Bool :=
  (match cellAt g r 0 with | .num _ => true | .boolv _ => true | _ => false) &&
  (match cellAt g r 1 with | .str s => !(pyStrip s).isEmpty | _ => false)

/-- Strict variant start-row scan: `range(label_row+1, min(label_row+200, h))`. -/
def findStartRowStrict (g : Grid) (labelRow : Nat) : Option Nat :=
  findFrom (strictStartPred g) (labelRow + 1) (min (labelRow + 200) (height g) - (labelRow + 1))

/-- Strict variant mark rule: non-blank strings only
(`isinstance(x, str) and x.strip() != ""`). -/
def strict_mark : Cell → Bool
  | .str s => !(pyStrip s).isEmpty
  | _ => false

/-- Strict variant mark count of one column over the student rows. -/
def countStrict (g : Grid) (s e col : Nat) : Nat :=
  (rowIdxs s e).countP fun r => strict_mark (cellAt g r col)

/-- Strict variant attendance: marks of the first Attendance column only,
no inference. -/
def attMarkedStrict (g : Grid) (s e : Nat) (cols : List (Nat × MealLabel)) : Nat :=
  match attColsOf cols with
  | [] => 0
  | a :: _ => countStrict g s e a

/-- Strict variant per-block records. -/
def blockRecordsStrict (g : Grid) (s e : Nat) (day : Str)
    (cols : List (Nat × MealLabel)) : List DayRec :=
  cols.filterMap fun p =>
    if p.2 = .B ∨ p.2 = .L ∨ p.2 = .P then
      some ⟨day, p.2, countStrict g s e p.1, attMarkedStrict g s e cols⟩
    else none

/-- Strict variant facility scrape: cell (7, 3) if it is a string (the
metadata loop reads it whenever column 3 exists; the loop's unguarded reads
of rows 0..29 raise IndexError on short sheets — that abort path is modelled
by the crash arm of `parse_sheet_strict`). -/
def facilityOf (g : Grid) : Option Str :=
  if 3 < min (width g) 100 then
    match cellAt g 7 3 with
    | .str s => some (pyStrip s)
    | _ => none
  else none

/-- Alphanumeric class of the regex `[A-Za-z0-9]`. -/
def isAlnumAZ (c : Char) : Bool :=
  (decide ('A' ≤ c) && decide (c ≤ 'Z')) ||
  (decide ('a' ≤ c) && decide (c ≤ 'z')) ||
  (decide ('0' ≤ c) && decide (c ≤ '9'))

/-- Leftmost match of the regex `Class\s*([A-Za-z0-9]+)` with `re.IGNORECASE`:
at each position where "class" matches case-insensitively, skip whitespace and
take a nonempty alphanumeric run; otherwise advance. -/
def classMatch : Str → Option Str
  | [] => none
  | c :: rest =>
    if (toL "class").isPrefixOf ((c :: rest).map Char.toLower) then
      let run := (((c :: rest).drop 5).dropWhile isWs).takeWhile isAlnumAZ
      if run.isEmpty then classMatch rest else some run
    else classMatch rest

/-- Strict variant class scrape: string cells in rows 0..29 containing
"Class" (case-sensitive guard) whose regex match succeeds; the last
assignment of the loop wins. -/
def classCandidates (g : Grid) : List Str :=
  (List.range 30).flatMap fun r =>
    (List.range (min (width g) 100)).filterMap fun c =>
      match cellAt g r c with
      | .str s => if containsSub (toL "Class") s then classMatch s else none
      | _ => none

/-- Strict variant class name: last candidate of the metadata scan. -/
def classNameOf (g : Grid) : Option Str := (classCandidates g).getLast?

/-- A calendar date as scraped from the sheets. -/
structure PDate where
  y : Nat
  m : Nat
  d : Nat
deriving DecidableEq

/-- Digits of a nonempty all-digit string, as a number. -/
def natOfDigits (s : Str) : Option Nat :=
  if s ≠ [] ∧ s.all Char.isDigit then
    some (s.foldl (fun n c => n * 10 + (c.toNat - 48)) 0)
  else none

/-- Date parsing of the external pandas collaborator (`pd.to_datetime`),
modelled on ISO `YYYY-MM-DD` strings; any other string fails. -/
def parseDateStr (s : Str) : Option PDate :=
  match s.splitOn '-' with
  | [ys, ms, ds] =>
    match natOfDigits ys, natOfDigits ms, natOfDigits ds with
    | some y, some m, some d =>
      if 1 ≤ m ∧ m ≤ 12 ∧ 1 ≤ d ∧ d ≤ 31 then some ⟨y, m, d⟩ else none
    | _, _, _ => none
  | _ => none

/-- Date parsing of a cell (non-string cells are not treated as dates). -/
def parseDateCell : Cell → Option PDate
  | .str s => parseDateStr s
  | _ => none

/-- Lexicographic order on dates. -/
def dateLe (a b : PDate) : Bool :=
  decide (a.y < b.y) ||
  (decide (a.y = b.y) && (decide (a.m < b.m) || (decide (a.m = b.m) && decide (a.d ≤ b.d))))

/-- Minimum of a date list (`min(week_dates)`), `none` when empty. -/
def minDate : List PDate → Option PDate :=
  List.foldl (fun acc d => match acc with
    | none => some d
    | some m => some (if dateLe d m then d else m)) none

/-- Maximum of a date list (`max(week_dates)`), `none` when empty. -/
def maxDate : List PDate → Option PDate :=
  List.foldl (fun acc d => match acc with
    | none => some d
    | some m => some (if dateLe m d then d else m)) none

/-- Strict variant week scan: on the row above the day row, each column whose
cell prints as "Date" after stripping contributes the first parseable date of
the next two rows. -/
def weekDatesStrict (g : Grid) (dayRow : Nat) : List PDate :=
  (List.range (width g)).filterMap fun c =>
    if pyStrip (safeStr (cellAt g (dayRow - 1) c)) = toL "Date" then
      match parseDateCell (cellAt g ((dayRow - 1) + 1) c) with
      | some d => some d
      | none => parseDateCell (cellAt g ((dayRow - 1) + 2) c)
    else none

/-- Strict variant sheet result. -/
structure SheetRes where
  campus : Str
  cls : Str
  weekStart : Option PDate
  weekEnd : Option PDate
  counts : List DayRec
deriving DecidableEq

/-- Outcome of the strict `parse_sheet`: an uncaught IndexError (`crash`,
aborting the whole batch), an early `return None` (`failed`), or a parsed
result. -/
inductive StrictOut where
  | crash
  | failed
  | ok (res : SheetRes)
deriving DecidableEq

/-- Source `parse_sheet` of the monitoring app (strict variant).  `failed`
models every early `return None`; `crash` models the unguarded `df.iat`
reads raising IndexError: the metadata loop reads rows 0..29 whenever the
sheet has a column (crash when height < 30), the block loop reads the label
row `day_row + 1` (crash when the day row is the last row), and the
student-row scan reads column 1 of every scanned row (crash when the scan
range is nonempty on a one-column sheet). -/
def parse_sheet_strict (g : Grid) : StrictOut :=
  if 1 ≤ width g ∧ height g < 30 then .crash
  else
  match findDayRowStrict g with
  | none => .failed
  | some dayRow =>
    let labelRow := dayRow + 1
    if (dayStartsStrict g dayRow).isEmpty then .failed
    else if height g ≤ dayRow + 1 then .crash
    else
      let blocks := blocksStrict g dayRow labelRow
      if blocks.isEmpty then .failed
      else if labelRow + 1 < min (labelRow + 200) (height g) ∧ width g < 2 then .crash
      else
        match findStartRowStrict g labelRow with
        | none => .failed
        | some startRow =>
          let endRow := findEndRow g startRow 80
          let counts := blocks.flatMap fun b => blockRecordsStrict g startRow endRow b.1 b.2
          let wd := weekDatesStrict g dayRow
          let campus := match facilityOf g with
            | some s => if s.isEmpty then toL "Unknown Campus" else s
            | none => toL "Unknown Campus"
          .ok ⟨campus, (classNameOf g).getD (toL "Unknown Class"),
               minDate wd, maxDate wd, counts⟩

/-- Zero-padded decimal digits of a number, `k` wide. -/
def padNat (k n : Nat) : Str :=
  let s := toL (toString n)
  List.replicate (k - s.length) '0' ++ s

/-- Python `str()` of a `datetime.date`: `YYYY-MM-DD`. -/
def dateStr (d : PDate) : Str :=
  padNat 4 d.y ++ toL "-" ++ padNat 2 d.m ++ toL "-" ++ padNat 2 d.d

/-- The `Week` tag of `build_report`:
`f"{WeekStart} to {WeekEnd}" if WeekStart else "Unknown Week"`. -/
def weekTag (ws we : Option PDate) : Str :=
  match ws with
  | some s => dateStr s ++ toL " to " ++ (match we with | some e => dateStr e | none => toL "None")
  | none => toL "Unknown Week"

/-- One flat row of `build_report`'s `all_records`. -/
structure SRec where
  campus : Str
  cls : Str
  week : Str
  day : Str
  meal : MealLabel
  marked : Nat
  att : Nat
  issue : Bool
deriving DecidableEq

/-- One iteration of `build_report`'s sheet loop.  A crash (IndexError from
`parse_sheet`) propagates: the whole batch aborts (`none`) and stays aborted.
Sheets that fail to parse or have empty counts are skipped silently; each
surviving count row becomes a flat record carrying the sheet's
campus/class/week tag and the `Issue_MissingRecording` flag
`MarkedCount == 0 and AttendanceMarked > 0`. -/
def reportStep (acc : Option (List SRec)) (sg : Str × Grid) : Option (List SRec) :=
  match acc with
  | none => none
  | some recs =>
    match parse_sheet_strict sg.2 with
    | .crash => none
    | .failed => some recs
    | .ok res =>
      if res.counts.isEmpty then some recs
      else some (recs ++ res.counts.map (fun r =>
        ⟨res.campus, res.cls, weekTag res.weekStart res.weekEnd, r.day, r.meal,
         r.marked, r.att, decide (r.marked = 0) && decide (0 < r.att)⟩))

/-- Source `build_report`, record-accumulation loop over the sheets; `none`
models the batch aborting on an uncaught IndexError. -/
def buildReportRecords (sheets : List (Str × Grid)) : Option (List SRec) :=
  sheets.foldl reportStep (some [])

/-- Characters before the first occurrence of `sub` (`s.split(sub)[0]`). -/
def upToFirst (sub : Str) : Str → Str
  | [] => []
  | c :: rest => if sub.isPrefixOf (c :: rest) then [] else c :: upToFirst sub rest

/-- Source `parse_week_start` inside `build_report`: strings containing "to"
have their prefix (up to the first "to") stripped and date-parsed; everything
else, and every parse failure, yields NaT (modelled as `none`). -/
def weekParse (w : Str) : Option PDate :=
  if containsSub (toL "to") w then parseDateStr (pyStrip (upToFirst (toL "to") w))
  else none

/-- The `Month` column: `pd.to_datetime(WeekStart).dt.to_period("M").astype(str)`.
A parsed week start renders as `YYYY-MM`; NaT renders as the literal string
"NaT". -/
def monthKey : Option PDate → Str
  | some d => padNat 4 d.y ++ toL "-" ++ padNat 2 d.m
  | none => toL "NaT"

/-- Month string of one flat record. -/
def monthOf (r : SRec) : Str := monthKey (weekParse r.week)

/-- The flat `Summary_All` table: every record, annotated with its
`WeekStart` and `Month` columns. -/
def flatTable (rs : List SRec) : List (SRec × Option PDate × Str) :=
  rs.map fun r => (r, weekParse r.week, monthOf r)

/-- The `Issue_MissingRecording == True` rows (`miss`). -/
def missRows (rs : List SRec) : List SRec := rs.filter (·.issue)

/-- `(Campus, Month)` group key of a record. -/
def cmKey (r : SRec) : Str × Str := (r.campus, monthOf r)

/-- `(Campus, Month, Week)` group key of a record. -/
def cmwKey (r : SRec) : Str × Str × Str := (r.campus, monthOf r, r.week)

/-- Rows whose `Meal` is one of the three meal labels (`meals3`). -/
def meals3 (rs : List SRec) : List SRec :=
  rs.filter fun r => decide (r.meal = .B) || decide (r.meal = .L) || decide (r.meal = .P)

/-- The six-column `daily_ok` group key
`(Campus, Class, Week, WeekStart, Month, Day)`. -/
structure K6 where
  campus : Str
  cls : Str
  week : Str
  ws : Option PDate
  month : Str
  day : Str
deriving DecidableEq

/-- Group key of one record for `daily_ok`. -/
def key6 (r : SRec) : K6 := ⟨r.campus, r.cls, r.week, weekParse r.week, monthOf r, r.day⟩

/-- Rows of `meals3` that enter the `daily_ok` groupby: pandas drops every
row whose group keys contain NA, and `WeekStart` (NaT exactly when the Week
string does not parse) is the only group key that can be NA, so
unparsable-week rows never reach `daily_ok`. -/
def kpiRows (rs : List SRec) : List SRec :=
  (meals3 rs).filter fun r => (weekParse r.week).isSome

/-- The `daily_ok` frame: one row per distinct six-column key of the
NA-key-free rows, valued 1 when exactly 3 of the group's meal rows have a
positive `MarkedCount` (`int((s > 0).sum() == 3)`). -/
def dailyOkRows (rs : List SRec) : List (K6 × ℚ) :=
  (((kpiRows rs).map key6).dedup).map fun k =>
    (k, if ((kpiRows rs).filter (fun r => key6 r = k)).countP (fun r => decide (0 < r.marked)) = 3
        then (1 : ℚ) else 0)

/-- `(Campus, Month)` keys of the missing-recording groupby. -/
def missMonthKeys (rs : List SRec) : List (Str × Str) :=
  ((missRows rs).map cmKey).dedup

/-- `(Campus, Month)` keys of the KPI groupby over `daily_ok`. -/
def kpiMonthKeys (rs : List SRec) : List (Str × Str) :=
  ((dailyOkRows rs).map (fun p => (p.1.campus, p.1.month))).dedup

/-- Key set of `Dashboard_Month` (outer merge of the two groupbys). -/
def dashMonthKeys (rs : List SRec) : List (Str × Str) :=
  (missMonthKeys rs ++ kpiMonthKeys rs).dedup

/-- `MissingMealRecordings` of one `(Campus, Month)` key (`groupby(...).size()`,
with the outer-merge `fillna(0)`). -/
def missCountMonth (rs : List SRec) (k : Str × Str) : Nat :=
  ((missRows rs).map cmKey).count k

/-- `Pct_Days_All3MealsRecorded` of one `(Campus, Month)` key: mean of the
group's `daily_ok` values (empty means are NaN and the merge fills them
with 0, matching rational division by zero). -/
def kpiValMonth (rs : List SRec) (k : Str × Str) : ℚ :=
  let vals := ((dailyOkRows rs).filter (fun p => (p.1.campus, p.1.month) = k)).map (·.2)
  (vals.foldl (· + ·) 0) / (vals.length : ℚ)

/-- The `Dashboard_Month` table: one row per `(Campus, Month)` bucket. -/
def dashMonth (rs : List SRec) : List ((Str × Str) × Nat × ℚ) :=
  (dashMonthKeys rs).map fun k => (k, missCountMonth rs k, kpiValMonth rs k)

/-- `(Campus, Month, Week)` keys of the missing-recording groupby. -/
def missMonthWeekKeys (rs : List SRec) : List (Str × Str × Str) :=
  ((missRows rs).map cmwKey).dedup

/-- `(Campus, Month, Week)` keys of the KPI groupby over `daily_ok`. -/
def kpiMonthWeekKeys (rs : List SRec) : List (Str × Str × Str) :=
  ((dailyOkRows rs).map (fun p => (p.1.campus, p.1.month, p.1.week))).dedup

/-- Key set of `Dashboard_Month_Week` (outer merge of the two groupbys). -/
def dashMonthWeekKeys (rs : List SRec) : List (Str × Str × Str) :=
  (missMonthWeekKeys rs ++ kpiMonthWeekKeys rs).dedup

/-- `MissingMealRecordings` of one `(Campus, Month, Week)` key. -/
def missCountMonthWeek (rs : List SRec) (k : Str × Str × Str) : Nat :=
  ((missRows rs).map cmwKey).count k

/-- The `Dashboard_Month_Week` table rows (key and missing-recording count;
the KPI mean column is analogous to `kpiValMonth`). -/
def kpiValMonthWeek (rs : List SRec) (k : Str × Str × Str) : ℚ :=
  let vals := ((dailyOkRows rs).filter (fun p => (p.1.campus, p.1.month, p.1.week) = k)).map (·.2)
  (vals.foldl (· + ·) 0) / (vals.length : ℚ)

/-- The `Dashboard_Month_Week` table: one row per `(Campus, Month, Week)` bucket. -/
def dashMonthWeek (rs : List SRec) : List ((Str × Str × Str) × Nat × ℚ) :=
  (dashMonthWeekKeys rs).map fun k => (k, missCountMonthWeek rs k, kpiValMonthWeek rs k)

/-- Grid with a duplicated day name on the day row (both "Mon." cells carry
labels underneath). -/
def gDup : Grid :=
  [[.absent, .str (toL "Mon."), .absent, .absent, .str (toL "Mon."), .absent],
   [.absent, .str (toL "B"), .str (toL "L"), .absent, .str (toL "B"), .absent],
   [.absent, .str (toL "Alice"), .str (toL "X"), .absent, .absent, .absent]]

/-- Fuzzy grid whose sheet has no mostly-empty row below the students
(width 6 < 8, so no row can ever have 8 NaNs among its first 10 columns). -/
def gNarrow : Grid :=
  [[.absent, .str (toL "Mon."), .absent, .absent, .str (toL "Tue."), .absent],
   [.absent, .str (toL "At"), .str (toL "B"), .str (toL "L"), .str (toL "At"), .str (toL "B")],
   [.absent, .str (toL "Alice"), .str (toL "X"), .absent, .absent, .absent],
   [.absent, .str (toL "Bob"), .absent, .str (toL "X"), .absent, .absent],
   [.absent, .str (toL "Cara"), .absent, .absent, .absent, .absent]]

/-- Grid whose first row holds two day tokens but whose first
period-terminated string at or below row 8 is on row 9. -/
def gLateDays : Grid :=
  [[.str (toL "Mon."), .str (toL "Tue.")],
   [.absent, .absent], [.absent, .absent], [.absent, .absent], [.absent, .absent],
   [.absent, .absent], [.absent, .absent], [.absent, .absent], [.absent, .absent],
   [.str (toL "Mon."), .str (toL "Tue.")],
   [.absent, .absent], [.absent, .absent]]

/-- An all-absent row of width 6. -/
def blankRow6 : List Cell := [.absent, .absent, .absent, .absent, .absent, .absent]

/-- A 31-row sheet the strict parser accepts (day row 8, label row 9,
one student row 10). -/
def gGood : Grid :=
  [blankRow6, blankRow6, blankRow6, blankRow6, blankRow6, blankRow6, blankRow6, blankRow6,
   [.absent, .absent, .str (toL "Mon."), .absent, .absent, .absent],
   [.absent, .absent, .str (toL "At"), .str (toL "B"), .absent, .absent],
   [.num 1, .str (toL "Alice"), .str (toL "X"), .str (toL "X"), .absent, .absent],
   blankRow6, blankRow6, blankRow6, blankRow6, blankRow6, blankRow6, blankRow6, blankRow6,
   blankRow6, blankRow6, blankRow6, blankRow6, blankRow6, blankRow6, blankRow6, blankRow6,
   blankRow6, blankRow6, blankRow6, blankRow6]

/-- A 31-row sheet the strict parser rejects (no period-terminated string in
rows 8..59). -/
def gBad : Grid := List.replicate 31 [Cell.absent, Cell.absent]

/-- A flat record whose `Week` string cannot be parsed. -/
def recUnparsable : SRec :=
  ⟨toL "CampusA", toL "C1", toL "Unknown Week", toL "Mon", .B, 0, 5, true⟩

theorem findFrom_some {p : Nat → Bool} :
    ∀ {fuel lo r : Nat}, findFrom p lo fuel = some r →
      lo ≤ r ∧ r < lo + fuel ∧ p r = true ∧ ∀ j, j < r → lo ≤ j → p j = false := by
  intro fuel
  induction fuel with
  | zero => intro lo r h; simp [findFrom] at h
  | succ n ih =>
    intro lo r h
    rw [findFrom] at h
    by_cases hp : p lo
    · rw [if_pos hp] at h
      cases h
      exact ⟨Nat.le_refl _, by omega, hp, fun j hj hj2 => absurd (Nat.lt_of_lt_of_le hj hj2) (Nat.lt_irrefl _)⟩
    · rw [if_neg hp] at h
      obtain ⟨h1, h2, h3, h4⟩ := ih h
      refine ⟨by omega, by omega, h3, fun j hj hj2 => ?_⟩
      rcases Nat.eq_or_lt_of_le hj2 with he | hl
      · subst he; exact Bool.of_not_eq_true hp
      · exact h4 j hj hl

theorem findFrom_none {p : Nat → Bool} :
    ∀ {fuel lo : Nat}, findFrom p lo fuel = none ↔ ∀ j, j < lo + fuel → lo ≤ j → p j = false := by
  intro fuel
  induction fuel with
  | zero => intro lo; simp [findFrom]; omega
  | succ n ih =>
    intro lo
    rw [findFrom]
    by_cases hp : p lo
    · simp only [if_pos hp]
      constructor
      · intro h; cases h
      · intro h; have := h lo (by omega) (Nat.le_refl _); rw [hp] at this; cases this
    · simp only [if_neg hp]
      rw [ih]
      constructor
      · intro h j hj1 hj2
        rcases Nat.eq_or_lt_of_le hj2 with he | hl
        · subst he; exact Bool.of_not_eq_true hp
        · exact h j (by omega) hl
      · intro h j hj1 hj2; exact h j (by omega) (by omega)

theorem findFrom_first {p : Nat → Bool} :
    ∀ {fuel lo r : Nat}, lo ≤ r → r < lo + fuel → p r = true →
      (∀ j, j < r → lo ≤ j → p j = false) → findFrom p lo fuel = some r := by
  intro fuel
  induction fuel with
  | zero => intro lo r h1 h2; omega
  | succ n ih =>
    intro lo r h1 h2 h3 h4
    rw [findFrom]
    rcases Nat.eq_or_lt_of_le h1 with he | hl
    · subst he; rw [if_pos h3]
    · have hplo : p lo = false := h4 lo hl (Nat.le_refl _)
      rw [if_neg (by simp [hplo])]
      exact ih (by omega) (by omega) h3 (fun j hj1 hj2 => h4 j hj1 (by omega))

theorem pyStripRight_eq_nil_iff {s : Str} : pyStripRight s = [] ↔ ∀ c ∈ s, isWs c = true := by
  unfold pyStripRight
  rw [List.reverse_eq_nil_iff, List.dropWhile_eq_nil_iff]
  constructor
  · intro h c hc; exact h c (List.mem_reverse.mpr hc)
  · intro h c hc; exact h c (List.mem_reverse.mp hc)

theorem pyStrip_eq_nil_iff {s : Str} : pyStrip s = [] ↔ ∀ c ∈ s, isWs c = true := by
  unfold pyStrip pyStripLeft
  rw [pyStripRight_eq_nil_iff]
  constructor
  · intro h c hc
    have hsplit := List.takeWhile_append_dropWhile (p := isWs) (l := s)
    rw [← hsplit] at hc
    rcases List.mem_append.mp hc with h1 | h2
    · exact List.mem_takeWhile_imp h1
    · exact h c h2
  · intro h c hc
    exact h c (List.Sublist.mem hc (List.dropWhile_sublist _))

theorem insSort_of_pairwise {le : α → α → Bool} :
    ∀ {l : List α}, l.Pairwise (fun a b => le a b = true) → insSort le l = l := by
  intro l
  induction l with
  | nil => intro _; rfl
  | cons x xs ih =>
    intro h
    rw [List.pairwise_cons] at h
    rw [insSort, ih h.2]
    cases xs with
    | nil => rfl
    | cons y ys => rw [sortedInsert, if_pos (h.1 y (List.mem_cons_self _ _))]

/-- The fuzzy day starts are strictly increasing in the column component. -/
theorem dayStartsRaw_pairwise (g : Grid) (dr : Nat) :
    (dayStartsRaw g dr).Pairwise (fun a b => a.1 < b.1) := by
  unfold dayStartsRaw
  rw [List.pairwise_filterMap]
  have := List.pairwise_lt_range (width g)
  refine this.imp_of_mem ?_
  intro a b _ _ hab x hx y hy
  have hxa : x.1 = a := by
    revert hx
    cases cellAt g dr a <;> intro hx <;> simp at hx
    · rw [← hx.2]
  have hyb : y.1 = b := by
    revert hy
    cases cellAt g dr b <;> intro hy <;> simp at hy
    · rw [← hy.2]
  rw [hxa, hyb]; exact hab

/-- The strict day starts are strictly increasing in the column component. -/
theorem dayStartsStrictRaw_pairwise (g : Grid) (dr : Nat) :
    (dayStartsStrictRaw g dr).Pairwise (fun a b => a.1 < b.1) := by
  unfold dayStartsStrictRaw
  rw [List.pairwise_filterMap]
  have := List.pairwise_lt_range (width g)
  refine this.imp_of_mem ?_
  intro a b _ _ hab x hx y hy
  have hxa : x.1 = a := by
    revert hx
    cases cellAt g dr a <;> intro hx <;> simp at hx
    · rw [← hx.2]
  have hyb : y.1 = b := by
    revert hy
    cases cellAt g dr b <;> intro hy <;> simp at hy
    · rw [← hy.2]
  rw [hxa, hyb]; exact hab

theorem pairwise_lt_pairLe {l : List (Nat × Str)} (h : l.Pairwise (fun a b => a.1 < b.1)) :
    l.Pairwise (fun a b => pairLe a b = true) := by
  refine h.imp ?_
  intro a b hab
  unfold pairLe
  simp [hab]

/-- Sorting the fuzzy day starts is the identity (they are already sorted). -/
theorem dayStartsSorted_eq (g : Grid) (dr : Nat) :
    dayStartsSorted g dr = dayStartsRaw g dr :=
  insSort_of_pairwise (pairwise_lt_pairLe (dayStartsRaw_pairwise g dr))

/-- Sorting the strict day starts is the identity (they are already sorted). -/
theorem dayStartsStrict_eq (g : Grid) (dr : Nat) :
    dayStartsStrict g dr = dayStartsStrictRaw g dr :=
  insSort_of_pairwise (pairwise_lt_pairLe (dayStartsStrictRaw_pairwise g dr))

/-- Columns of the fuzzy day starts are bounded by the grid width. -/
theorem dayStartsRaw_bound (g : Grid) (dr : Nat) :
    ∀ p ∈ dayStartsRaw g dr, p.1 < width g := by
  intro p hp
  unfold dayStartsRaw at hp
  rw [List.mem_filterMap] at hp
  obtain ⟨c, hc, hfc⟩ := hp
  have hcw := List.mem_range.mp hc
  have : p.1 = c := by
    revert hfc
    cases cellAt g dr c <;> intro hfc <;> simp at hfc
    · rw [← hfc.2]
  omega

/-- Columns of the strict day starts are bounded by the grid width. -/
theorem dayStartsStrictRaw_bound (g : Grid) (dr : Nat) :
    ∀ p ∈ dayStartsStrictRaw g dr, p.1 < width g := by
  intro p hp
  unfold dayStartsStrictRaw at hp
  rw [List.mem_filterMap] at hp
  obtain ⟨c, hc, hfc⟩ := hp
  have hcw := List.mem_range.mp hc
  have : p.1 = c := by
    revert hfc
    cases cellAt g dr c <;> intro hfc <;> simp at hfc
    · rw [← hfc.2]
  omega

theorem spans_ne_nil {w : Nat} {l : List (Nat × Str)} (h : l ≠ []) : spans w l ≠ [] := by
  cases l with
  | nil => exact absurd rfl h
  | cons x rest =>
    obtain ⟨c, d⟩ := x
    cases rest with
    | nil => simp [spans]
    | cons y t => obtain ⟨c2, d2⟩ := y; simp [spans]

theorem spans_starts {w : Nat} :
    ∀ {l : List (Nat × Str)}, (spans w l).map (fun b => b.1.1) = l.map (·.1) := by
  intro l
  induction l with
  | nil => rfl
  | cons x rest ih =>
    obtain ⟨c, d⟩ := x
    cases rest with
    | nil => rfl
    | cons y t =>
      obtain ⟨c2, d2⟩ := y
      simpa [spans] using ih

theorem spans_start_mem {w : Nat} {l : List (Nat × Str)} {b : (Nat × Nat) × Str}
    (hb : b ∈ spans w l) : b.1.1 ∈ l.map (·.1) := by
  rw [← spans_starts (w := w)]
  exact List.mem_map_of_mem _ hb

theorem spans_lt {w : Nat} :
    ∀ {l : List (Nat × Str)}, l.Pairwise (fun a b => a.1 < b.1) → (∀ p ∈ l, p.1 < w) →
      ∀ b ∈ spans w l, b.1.1 < b.1.2 := by
  intro l
  induction l with
  | nil => intro _ _ b hb; cases hb
  | cons x rest ih =>
    obtain ⟨c, d⟩ := x
    intro hp hb b hmem
    cases rest with
    | nil =>
      simp [spans] at hmem
      subst hmem
      exact hb (c, d) (List.mem_cons_self _ _)
    | cons y t =>
      obtain ⟨c2, d2⟩ := y
      rw [spans] at hmem
      rcases List.mem_cons.mp hmem with he | ht
      · subst he
        exact (List.pairwise_cons.mp hp).1 (c2, d2) (List.mem_cons_self _ _)
      · exact ih (List.pairwise_cons.mp hp).2
          (fun p hpmem => hb p (List.mem_cons_of_mem _ hpmem)) b ht

theorem spans_chain {w : Nat} :
    ∀ (l : List (Nat × Str)), List.Chain' (fun a b => a.1.2 = b.1.1) (spans w l) := by
  intro l
  induction l with
  | nil => exact List.chain'_nil
  | cons x rest ih =>
    obtain ⟨c, d⟩ := x
    cases rest with
    | nil => simp [spans]
    | cons y t =>
      obtain ⟨c2, d2⟩ := y
      rw [spans]
      rcases ht : spans w ((c2, d2) :: t) with _ | ⟨b2, bs⟩
      · exact absurd ht (spans_ne_nil (by simp))
      · refine List.Chain'.cons ?_ (ht ▸ ih)
        have : b2.1.1 = c2 := by
          have hm : (spans w ((c2, d2) :: t)).map (fun b => b.1.1) = c2 :: t.map (·.1) :=
            spans_starts
          rw [ht] at hm
          simpa using congrArg List.head? hm
        simp [this]

theorem spans_last {w : Nat} :
    ∀ {l : List (Nat × Str)}, l ≠ [] → (spans w l).getLast?.map (fun b => b.1.2) = some w := by
  intro l
  induction l with
  | nil => intro h; exact absurd rfl h
  | cons x rest ih =>
    obtain ⟨c, d⟩ := x
    intro _
    cases rest with
    | nil => simp [spans]
    | cons y t =>
      obtain ⟨c2, d2⟩ := y
      rw [spans]
      rcases ht : spans w ((c2, d2) :: t) with _ | ⟨b2, bs⟩
      · exact absurd ht (spans_ne_nil (by simp))
      · rw [List.getLast?_cons_cons]
        rw [← ht]
        exact ih (by simp)

theorem spans_cover {w : Nat} :
    ∀ {l : List (Nat × Str)} {c0 : Nat} {d0 : Str} {t : List (Nat × Str)},
      l = (c0, d0) :: t → ∀ c, c0 ≤ c → c < w →
        ∃ b ∈ spans w l, b.1.1 ≤ c ∧ c < b.1.2 := by
  intro l
  induction l with
  | nil => intro c0 d0 t h; cases h
  | cons x rest ih =>
    intro c0 d0 t h c hc0 hcw
    obtain ⟨he, ht⟩ := List.cons.inj h
    subst he; subst ht
    cases rest with
    | nil => exact ⟨((c0, w), d0), by simp [spans], hc0, hcw⟩
    | cons y t2 =>
      obtain ⟨c2, d2⟩ := y
      by_cases hlt : c < c2
      · exact ⟨((c0, c2), d0), by simp [spans], hc0, hlt⟩
      · obtain ⟨b, hb, hb1, hb2⟩ := ih rfl c (by omega) hcw
        exact ⟨b, by simp [spans, List.mem_cons]; right; exact hb, hb1, hb2⟩

theorem spans_within {w : Nat} :
    ∀ {l : List (Nat × Str)} {c0 : Nat} {d0 : Str} {t : List (Nat × Str)},
      l = (c0, d0) :: t → l.Pairwise (fun a b => a.1 < b.1) → (∀ p ∈ l, p.1 < w) →
        ∀ b ∈ spans w l, c0 ≤ b.1.1 ∧ b.1.2 ≤ w := by
  intro l
  induction l with
  | nil => intro c0 d0 t h; cases h
  | cons x rest ih =>
    intro c0 d0 t h hp hbnd b hb
    obtain ⟨he, ht⟩ := List.cons.inj h
    subst he; subst ht
    cases rest with
    | nil =>
      simp [spans] at hb
      subst hb
      exact ⟨Nat.le_refl _, Nat.le_refl _⟩
    | cons y t2 =>
      obtain ⟨c2, d2⟩ := y
      rw [spans] at hb
      rcases List.mem_cons.mp hb with he2 | ht2
      · subst he2
        refine ⟨Nat.le_refl _, ?_⟩
        have := hbnd (c2, d2) (List.mem_cons_of_mem _ (List.mem_cons_self _ _))
        show c2 ≤ w
        simp only at this
        omega
      · obtain ⟨h1, h2⟩ := ih rfl (List.pairwise_cons.mp hp).2
          (fun p hpmem => hbnd p (List.mem_cons_of_mem _ hpmem)) b ht2
        have hcc : c0 < c2 := (List.pairwise_cons.mp hp).1 (c2, d2) (List.mem_cons_self _ _)
        exact ⟨by omega, h2⟩

/-- Blocks are pairwise disjoint: every earlier block ends no later than any
later block starts. -/
theorem spans_pairwise_disjoint {w : Nat} :
    ∀ {l : List (Nat × Str)}, l.Pairwise (fun a b => a.1 < b.1) →
      (spans w l).Pairwise (fun a b => a.1.2 ≤ b.1.1) := by
  intro l
  induction l with
  | nil => intro _; exact List.Pairwise.nil
  | cons x rest ih =>
    obtain ⟨c, d⟩ := x
    intro hp
    cases rest with
    | nil => simp [spans]
    | cons y t =>
      obtain ⟨c2, d2⟩ := y
      rw [spans]
      refine List.pairwise_cons.mpr ⟨?_, ih (List.pairwise_cons.mp hp).2⟩
      intro b hb
      have hmem := spans_start_mem hb
      rw [List.mem_map] at hmem
      obtain ⟨p, hpmem, hpe⟩ := hmem
      have hrest := (List.pairwise_cons.mp hp).2
      rcases List.mem_cons.mp hpmem with he | ht
      · subst he; simp only [← hpe]; exact Nat.le_refl _
      · have := (List.pairwise_cons.mp hrest).1 p ht
        simp only [← hpe]
        show c2 ≤ p.1
        omega

theorem dictLookup_nil (d : Str) : dictLookup ([] : List (Str × α)) d = none := rfl

theorem dictLookup_cons (x : Str × α) (l : List (Str × α)) (d : Str) :
    dictLookup (x :: l) d = if x.1 = d then some x.2 else dictLookup l d := by
  unfold dictLookup
  by_cases h : x.1 = d
  · rw [List.find?_cons_of_pos _ (by simp [h]), if_pos h]
    rfl
  · rw [List.find?_cons_of_neg _ (by simp [h]), if_neg h]

theorem dictLookup_append (l1 l2 : List (Str × α)) (d : Str) :
    dictLookup (l1 ++ l2) d
      = match dictLookup l1 d with
        | some w => some w
        | none => dictLookup l2 d := by
  induction l1 with
  | nil => rw [List.nil_append, dictLookup_nil]
  | cons x xs ih =>
    rw [List.cons_append, dictLookup_cons, dictLookup_cons, ih]
    by_cases h : x.1 = d
    · rw [if_pos h, if_pos h]
    · rw [if_neg h, if_neg h]

theorem dictLookup_mapReplace (k : Str) (v : α) (d : Str) :
    ∀ m : List (Str × α),
      dictLookup (m.map (fun p => if p.1 = k then (k, v) else p)) d
        = if d = k then
            (if m.any (fun p => decide (p.1 = k)) then some v else none)
          else dictLookup m d := by
  intro m
  induction m with
  | nil =>
    by_cases h : d = k <;> simp [dictLookup_nil, h]
  | cons q m ih =>
    rw [List.map_cons, dictLookup_cons, dictLookup_cons]
    by_cases hqk : q.1 = k
    · rw [if_pos hqk]
      by_cases hdk : d = k
      · have h1 : ((k, v) : Str × α).1 = d := by rw [hdk]
        rw [if_pos h1, if_pos hdk]
        have h2 : (q :: m).any (fun p => decide (p.1 = k)) = true :=
          List.any_cons .. ▸ (by simp [hqk])
        rw [if_pos h2]
      · have h1 : ¬((k, v) : Str × α).1 = d := fun he => hdk he.symm
        rw [if_neg h1, if_neg hdk, ih, if_neg hdk]
        have h2 : ¬q.1 = d := fun he => hdk ((hqk.symm.trans he).symm)
        rw [if_neg h2]
    · rw [if_neg hqk]
      by_cases hqd : q.1 = d
      · rw [if_pos hqd, if_pos hqd]
        have hdk : ¬d = k := fun he => hqk (hqd.trans he)
        rw [if_neg hdk]
      · rw [if_neg hqd, if_neg hqd, ih]
        by_cases hdk : d = k
        · rw [if_pos hdk, if_pos hdk]
          have : (q :: m).any (fun p => decide (p.1 = k))
              = m.any (fun p => decide (p.1 = k)) := by
            rw [List.any_cons]
            simp [hqk]
          rw [this]
        · rw [if_neg hdk, if_neg hdk]

theorem dictLookup_upsert (m : List (Str × α)) (k : Str) (v : α) (d : Str) :
    dictLookup (dictUpsert m k v) d = if d = k then some v else dictLookup m d := by
  unfold dictUpsert
  by_cases hany : m.any (fun p => decide (p.1 = k)) = true
  · rw [if_pos hany, dictLookup_mapReplace, hany]
    by_cases hdk : d = k
    · rw [if_pos hdk, if_pos hdk, if_pos rfl]
    · rw [if_neg hdk, if_neg hdk]
  · rw [if_neg hany, dictLookup_append]
    by_cases hdk : d = k
    · subst hdk
      have h0 : m.find? (fun p => decide (p.1 = d)) = none := by
        rw [List.find?_eq_none]
        intro p hpm hpk
        exact hany (List.any_eq_true.mpr ⟨p, hpm, hpk⟩)
      have h1 : dictLookup m d = none := by
        unfold dictLookup
        rw [h0]
        rfl
      rw [h1, if_pos rfl]
      show dictLookup ([(d, v)] : List (Str × α)) d = some v
      rw [dictLookup_cons, if_pos rfl]
    · rw [if_neg hdk]
      have h2 : dictLookup ([(k, v)] : List (Str × α)) d = none := by
        rw [dictLookup_cons, if_neg (fun he => hdk he.symm), dictLookup_nil]
      rcases h : dictLookup m d with _ | w
      · rw [h2]
      · rfl

theorem dictUpsert_keys_nodup (m : List (Str × α)) (k : Str) (v : α)
    (h : (m.map Prod.fst).Nodup) : ((dictUpsert m k v).map Prod.fst).Nodup := by
  unfold dictUpsert
  by_cases hany : m.any (fun p => decide (p.1 = k)) = true
  · rw [if_pos hany]
    have heq : (m.map (fun p : Str × α => if p.1 = k then (k, v) else p)).map Prod.fst
        = m.map Prod.fst := by
      rw [List.map_map]
      refine List.map_congr_left ?_
      intro p _
      by_cases hp : p.1 = k <;> simp [hp]
    rw [heq]; exact h
  · rw [if_neg hany, List.map_append, List.nodup_append]
    refine ⟨h, by simp, ?_⟩
    intro x hx hx2
    simp only [List.map_cons, List.map_nil, List.mem_singleton] at hx2
    subst hx2
    rw [List.mem_map] at hx
    obtain ⟨p, hpm, hpe⟩ := hx
    exact hany (List.any_eq_true.mpr ⟨p, hpm, by simp [hpe]⟩)

/-- Value of the last entry with the given key (`None` when absent). -/
def findLast (l : List (Str × α)) (d : Str) : Option α :=
  (l.reverse.find? (fun p => decide (p.1 = d))).map (·.2)

/-- The dict-building fold: looking a key up afterwards returns the value of
the LAST pair with that key pushed by the fold (later assignments overwrite). -/
theorem dictLookup_foldl_upsert (l : List (Str × α)) :
    ∀ (acc : List (Str × α)) (d : Str),
      dictLookup (l.foldl (fun m p => dictUpsert m p.1 p.2) acc) d
        = match findLast l d with
          | some v => some v
          | none => dictLookup acc d := by
  induction l with
  | nil => intro acc d; rfl
  | cons x xs ih =>
    intro acc d
    rw [List.foldl_cons, ih]
    unfold findLast
    rw [List.reverse_cons, List.find?_append]
    rcases hf : xs.reverse.find? (fun p => decide (p.1 = d)) with _ | q
    · rw [hf]
      show dictLookup (dictUpsert acc x.1 x.2) d
          = match Option.map (fun p => p.2) (List.find? (fun p => decide (p.1 = d)) [x]) with
            | some v => some v
            | none => dictLookup acc d
      rw [dictLookup_upsert]
      by_cases hdx : d = x.1
      · rw [if_pos hdx]
        have hx : List.find? (fun p => decide (p.1 = d)) [x] = some x :=
          List.find?_cons_of_pos _ (by simp [hdx.symm])
        rw [hx]
        rfl
      · rw [if_neg hdx]
        have hx : List.find? (fun p => decide (p.1 = d)) [x] = none := by
          rw [List.find?_eq_none]
          intro p hp
          simp only [List.mem_singleton] at hp
          subst hp
          simp only [decide_eq_true_eq]
          exact fun he => hdx he.symm
        rw [hx]
        rfl
    · rw [hf]
      rfl

/-- The labelled blocks of the fuzzy variant in day-start order, before the
dict keyed by day name collapses duplicate day names. -/
def labeledBlocks (g : Grid) (dayRow labelRow : Nat) : List (Str × List (Nat × MealLabel)) :=
  (spans (width g) (dayStartsSorted g dayRow)).filterMap fun blk =>
    if (blockLabels g labelRow blk).isEmpty then none
    else some (blk.2, blockLabels g labelRow blk)

/-- The labelled blocks of the strict variant in day-start order. -/
def labeledBlocksStrict (g : Grid) (dayRow labelRow : Nat) : List (Str × List (Nat × MealLabel)) :=
  (spans (width g) (dayStartsStrict g dayRow)).filterMap fun blk =>
    if (blockLabelsStrict g labelRow blk).isEmpty then none
    else some (blk.2, blockLabelsStrict g labelRow blk)

theorem foldl_skip_eq_filterMap {β : Type} (lab : β → List (Nat × MealLabel)) (key : β → Str) :
    ∀ (bs : List β) (acc : List (Str × List (Nat × MealLabel))),
      bs.foldl (fun acc blk => if (lab blk).isEmpty then acc else dictUpsert acc (key blk) (lab blk)) acc
        = (bs.filterMap fun blk =>
            if (lab blk).isEmpty then none else some (key blk, lab blk)).foldl
            (fun m p => dictUpsert m p.1 p.2) acc := by
  intro bs
  induction bs with
  | nil => intro acc; rfl
  | cons b bs ih =>
    intro acc
    rw [List.foldl_cons, List.filterMap_cons]
    by_cases hL : (lab b).isEmpty = true
    · rw [if_pos hL, if_pos hL, ih]
    · rw [if_neg hL, if_neg hL, List.foldl_cons, ih]

theorem blocksOf_eq_fold (g : Grid) (dayRow labelRow : Nat) :
    blocksOf g dayRow labelRow
      = (labeledBlocks g dayRow labelRow).foldl (fun m p => dictUpsert m p.1 p.2) [] := by
  unfold blocksOf labeledBlocks
  exact foldl_skip_eq_filterMap (blockLabels g labelRow) (fun blk => blk.2) _ []

theorem blocksStrict_eq_fold (g : Grid) (dayRow labelRow : Nat) :
    blocksStrict g dayRow labelRow
      = (labeledBlocksStrict g dayRow labelRow).foldl (fun m p => dictUpsert m p.1 p.2) [] := by
  unfold blocksStrict labeledBlocksStrict
  exact foldl_skip_eq_filterMap (blockLabelsStrict g labelRow) (fun blk => blk.2) _ []

theorem foldl_upsert_keys_nodup :
    ∀ (l : List (Str × α)) (acc : List (Str × α)),
      (acc.map Prod.fst).Nodup →
      (((l.foldl (fun m p => dictUpsert m p.1 p.2) acc)).map Prod.fst).Nodup := by
  intro l
  induction l with
  | nil => intro acc h; exact h
  | cons x xs ih =>
    intro acc h
    rw [List.foldl_cons]
    exact ih _ (dictUpsert_keys_nodup _ _ _ h)

/-- Records contributed by one sheet in `build_all` (empty on parse failure). -/
def sheetRecords (flag : Bool) (sg : Str × Grid) : List NamedRec :=
  match parse_sheet_fuzzy flag sg.2 with
  | .error _ => []
  | .ok rs => rs.map (fun r => ⟨sg.1, r⟩)

/-- Debug entry contributed by one sheet in `build_all`. -/
def sheetDebug (flag : Bool) (sg : Str × Grid) : DebugEntry :=
  match parse_sheet_fuzzy flag sg.2 with
  | .error e => .errE sg.1 e
  | .ok _ => .okE sg.1

theorem build_all_eq (flag : Bool) :
    ∀ sheets : List (Str × Grid),
      build_all flag sheets
        = (sheets.flatMap (sheetRecords flag), sheets.map (sheetDebug flag)) := by
  unfold build_all
  suffices h : ∀ (sheets : List (Str × Grid)) (acc : List NamedRec × List DebugEntry),
      sheets.foldl
        (fun acc sg =>
          match parse_sheet_fuzzy flag sg.2 with
          | .error e => (acc.1, acc.2 ++ [.errE sg.1 e])
          | .ok rs => (acc.1 ++ rs.map (fun r => ⟨sg.1, r⟩), acc.2 ++ [.okE sg.1]))
        acc
      = (acc.1 ++ sheets.flatMap (sheetRecords flag), acc.2 ++ sheets.map (sheetDebug flag)) by
    intro sheets
    rw [h sheets ([], [])]
    rfl
  intro sheets
  induction sheets with
  | nil => intro acc; simp
  | cons sg rest ih =>
    intro acc
    rw [List.foldl_cons, List.flatMap_cons, List.map_cons]
    rcases hp : parse_sheet_fuzzy flag sg.2 with e | rs
    · rw [ih]
      unfold sheetRecords sheetDebug
      rw [hp]
      simp
    · rw [ih]
      unfold sheetRecords sheetDebug
      rw [hp]
      simp

/-- Records contributed by one sheet in `build_report` (empty when the strict
parser fails or yields no counts; a crashing sheet contributes no records
either — it aborts the batch, which `buildReport_aborts` captures). -/
def sheetSRecs (sg : Str × Grid) : List SRec :=
  match parse_sheet_strict sg.2 with
  | .ok res =>
    if res.counts.isEmpty then []
    else res.counts.map (fun r =>
      ⟨res.campus, res.cls, weekTag res.weekStart res.weekEnd, r.day, r.meal,
       r.marked, r.att, decide (r.marked = 0) && decide (0 < r.att)⟩)
  | _ => []

theorem foldl_reportStep_none :
    ∀ sheets : List (Str × Grid), sheets.foldl reportStep none = none := by
  intro sheets
  induction sheets with
  | nil => rfl
  | cons sg rest ih => rw [List.foldl_cons]; exact ih

theorem buildReportRecords_no_crash :
    ∀ sheets : List (Str × Grid),
      (∀ sg ∈ sheets, parse_sheet_strict sg.2 ≠ .crash) →
      buildReportRecords sheets = some (sheets.flatMap sheetSRecs) := by
  unfold buildReportRecords
  suffices h : ∀ (sheets : List (Str × Grid)) (acc : List SRec),
      (∀ sg ∈ sheets, parse_sheet_strict sg.2 ≠ .crash) →
      sheets.foldl reportStep (some acc) = some (acc ++ sheets.flatMap sheetSRecs) by
    intro sheets hnc
    rw [h sheets [] hnc]
    rfl
  intro sheets
  induction sheets with
  | nil => intro acc _; simp
  | cons sg rest ih =>
    intro acc hnc
    rw [List.foldl_cons, List.flatMap_cons]
    have hrest : ∀ p ∈ rest, parse_sheet_strict p.2 ≠ .crash :=
      fun p hp => hnc p (List.mem_cons_of_mem _ hp)
    rcases hp : parse_sheet_strict sg.2 with _ | _ | res
    · exact absurd hp (hnc sg (List.mem_cons_self _ _))
    · have hstep : reportStep (some acc) sg = some acc := by
        simp [reportStep, hp]
      have hrec : sheetSRecs sg = [] := by
        simp [sheetSRecs, hp]
      rw [hstep, ih acc hrest, hrec]
      simp
    · by_cases hc : res.counts.isEmpty = true
      · have hstep : reportStep (some acc) sg = some acc := by
          simp [reportStep, hp, hc]
        have hrec : sheetSRecs sg = [] := by
          simp [sheetSRecs, hp, hc]
        rw [hstep, ih acc hrest, hrec]
        simp
      · have hstep : reportStep (some acc) sg
            = some (acc ++ res.counts.map (fun r =>
              ⟨res.campus, res.cls, weekTag res.weekStart res.weekEnd, r.day, r.meal,
               r.marked, r.att, decide (r.marked = 0) && decide (0 < r.att)⟩)) := by
          simp [reportStep, hp, hc]
        have hrec : sheetSRecs sg = res.counts.map (fun r =>
            ⟨res.campus, res.cls, weekTag res.weekStart res.weekEnd, r.day, r.meal,
             r.marked, r.att, decide (r.marked = 0) && decide (0 < r.att)⟩) := by
          simp [sheetSRecs, hp, hc]
        rw [hstep, ih _ hrest, hrec, List.append_assoc]

theorem buildReport_aborts (pre post : List (Str × Grid)) (sg : Str × Grid)
    (hcrash : parse_sheet_strict sg.2 = .crash) :
    buildReportRecords (pre ++ sg :: post) = none := by
  unfold buildReportRecords
  rw [List.foldl_append, List.foldl_cons]
  have hstep : ∀ acc : Option (List SRec), reportStep acc sg = none := by
    intro acc
    cases acc
    · rfl
    · unfold reportStep
      rw [hcrash]
  rw [hstep]
  exact foldl_reportStep_none post

/-- The meal-labelled entries of a block, in order. -/
def mealEntriesOf (cols : List (Nat × MealLabel)) : List (Nat × MealLabel) :=
  cols.filterMap fun p => if p.2 = .B ∨ p.2 = .L ∨ p.2 = .P then some p else none

theorem mealColsOf_eq_map (cols : List (Nat × MealLabel)) :
    mealColsOf cols = (mealEntriesOf cols).map Prod.fst := by
  unfold mealColsOf mealEntriesOf
  induction cols with
  | nil => rfl
  | cons p rest ih =>
    rw [List.filterMap_cons, List.filterMap_cons]
    by_cases hp : p.2 = .B ∨ p.2 = .L ∨ p.2 = .P
    · rw [if_pos hp, if_pos hp, List.map_cons, ih]
    · rw [if_neg hp, if_neg hp, ih]

theorem filterMap_guard_eq_map {α β : Type} (P : α → Prop) [DecidablePred P] (f : α → β) :
    ∀ l : List α,
      l.filterMap (fun p => if P p then some (f p) else none)
        = (l.filterMap (fun p => if P p then some p else none)).map f := by
  intro l
  induction l with
  | nil => rfl
  | cons x xs ih =>
    rw [List.filterMap_cons, List.filterMap_cons]
    by_cases hx : P x
    · rw [if_pos hx, if_pos hx, List.map_cons, ih]
    · rw [if_neg hx, if_neg hx, ih]

theorem blockRecords_eq_map (g : Grid) (s e : Nat) (day : Str)
    (cols : List (Nat × MealLabel)) (flag : Bool) :
    blockRecords g s e day cols flag
      = (mealEntriesOf cols).map
          (fun p => ⟨day, p.2, countMarks g s e p.1, attPresent g s e cols flag⟩) := by
  unfold blockRecords mealEntriesOf
  exact filterMap_guard_eq_map _ _ cols

theorem blockRecordsStrict_eq_map (g : Grid) (s e : Nat) (day : Str)
    (cols : List (Nat × MealLabel)) :
    blockRecordsStrict g s e day cols
      = (mealEntriesOf cols).map
          (fun p => ⟨day, p.2, countStrict g s e p.1, attMarkedStrict g s e cols⟩) := by
  unfold blockRecordsStrict mealEntriesOf
  exact filterMap_guard_eq_map _ _ cols

theorem attBase_eq_head (f : Nat → Nat) (l : List Nat) :
    (match l with | [] => 0 | a :: _ => f a)
      = (match l.head? with | none => 0 | some a => f a) := by
  cases l <;> rfl

theorem attPresent_congr (g : Grid) (s e : Nat) (flag : Bool)
    (cols cols' : List (Nat × MealLabel))
    (hatt : (attColsOf cols).head? = (attColsOf cols').head?)
    (hmeal : mealColsOf cols = mealColsOf cols') :
    attPresent g s e cols flag = attPresent g s e cols' flag := by
  unfold attPresent
  rw [attBase_eq_head (countMarks g s e) (attColsOf cols),
      attBase_eq_head (countMarks g s e) (attColsOf cols'), hatt, hmeal]

theorem attMarkedStrict_congr (g : Grid) (s e : Nat)
    (cols cols' : List (Nat × MealLabel))
    (hatt : (attColsOf cols).head? = (attColsOf cols').head?) :
    attMarkedStrict g s e cols = attMarkedStrict g s e cols' := by
  unfold attMarkedStrict
  rw [attBase_eq_head (countStrict g s e) (attColsOf cols),
      attBase_eq_head (countStrict g s e) (attColsOf cols'), hatt]

theorem attColsOf_sorted_head_min {cols : List (Nat × MealLabel)}
    (h : cols.Pairwise (fun a b => a.1 ≤ b.1)) :
    ∀ a ∈ attColsOf cols, ∀ h0 ∈ (attColsOf cols).head?, h0 ≤ a := by
  have hs : (attColsOf cols).Pairwise (· ≤ ·) := by
    unfold attColsOf
    rw [List.pairwise_filterMap]
    refine h.imp_of_mem ?_
    intro p q _ _ hpq x hx y hy
    have hxp : x = p.1 := by
      revert hx
      by_cases hp : p.2 = MealLabel.At <;> intro hx <;> simp [hp] at hx
      exact hx.symm
    have hyq : y = q.1 := by
      revert hy
      by_cases hq : q.2 = MealLabel.At <;> intro hy <;> simp [hq] at hy
      exact hy.symm
    rw [hxp, hyq]; exact hpq
  cases hl : attColsOf cols with
  | nil => intro a ha; exact absurd ha (List.not_mem_nil a)
  | cons a0 rest =>
    intro a ha h0 hh0
    simp only [List.head?_cons, Option.mem_def, Option.some.injEq] at hh0
    subst hh0
    rw [hl] at hs
    rcases List.mem_cons.mp ha with he | ht
    · subst he; exact Nat.le_refl _
    · exact (List.pairwise_cons.mp hs).1 a ht

theorem attPresent_of_blank_att (g : Grid) (s e : Nat) (cols : List (Nat × MealLabel))
    (h1 : ∀ a ∈ attColsOf cols, countMarks g s e a = 0)
    (h2 : ∃ c ∈ mealColsOf cols, ∃ r ∈ rowIdxs s e, nonempty_mark (cellAt g r c) = true) :
    attPresent g s e cols true = anyMealCount g s e (mealColsOf cols)
      ∧ 1 ≤ attPresent g s e cols true
      ∧ attPresent g s e cols false = 0 := by
  have hbase : (match attColsOf cols with
      | [] => 0
      | a :: _ => countMarks g s e a) = 0 := by
    cases hl : attColsOf cols with
    | nil => rfl
    | cons a rest => exact h1 a (by rw [hl]; exact List.mem_cons_self _ _)
  obtain ⟨c, hc, r, hr, hm⟩ := h2
  have hne : mealColsOf cols ≠ [] := by
    intro he; rw [he] at hc; cases hc
  have hcnt : 1 ≤ anyMealCount g s e (mealColsOf cols) := by
    unfold anyMealCount
    refine Nat.succ_le_of_lt (List.countP_pos_iff.mpr ⟨r, hr, ?_⟩)
    exact List.any_eq_true.mpr ⟨c, hc, hm⟩
  obtain ⟨m, ms, hl⟩ := List.exists_cons_of_ne_nil hne
  refine ⟨?_, ?_, ?_⟩
  · unfold attPresent
    rw [hbase, if_pos ⟨rfl, rfl⟩, hl]
  · unfold attPresent
    rw [hbase, if_pos ⟨rfl, rfl⟩, hl]
    rw [hl] at hcnt
    exact hcnt
  · unfold attPresent
    rw [hbase]
    have : ¬((0 : Nat) = 0 ∧ false = true) := fun hcon => by cases hcon.2
    rw [if_neg this]

/-- C6: for every string cell value, the fuzzy meal classifier
`meal_label_from_token` applies the fixed precedence Attendance, Breakfast,
Lunch, PM-Snack with the stated per-class matching rules (`attRule`,
`breakfastRule`, `lunchRule`, `pmSnackRule` on the normalized token), the
first matching class winning and unmatched values classifying to none —
i.e. it coincides with the precedence-table classifier `mealClassSpec`. -/
theorem C6_meal_classifier_precedence :
    ∀ s : Str, meal_label_from_token s = mealClassSpec s := by
  intro s
  unfold meal_label_from_token mealClassSpec precTable
  by_cases h1 : attRule (normTok s)
  · rw [if_pos h1, List.find?_cons_of_pos _ (by simpa using h1)]
    rfl
  · rw [if_neg h1,
        List.find?_cons_of_neg _ (by simpa using h1)]
    by_cases h2 : breakfastRule (normTok s)
    · rw [if_pos h2, List.find?_cons_of_pos _ (by simpa using h2)]
      rfl
    · rw [if_neg h2, List.find?_cons_of_neg _ (by simpa using h2)]
      by_cases h3 : lunchRule (normTok s)
      · rw [if_pos h3, List.find?_cons_of_pos _ (by simpa using h3)]
        rfl
      · rw [if_neg h3, List.find?_cons_of_neg _ (by simpa using h3)]
        by_cases h4 : pmSnackRule (normTok s)
        · rw [if_pos h4, List.find?_cons_of_pos _ (by simpa using h4)]
          rfl
        · rw [if_neg h4, List.find?_cons_of_neg _ (by simpa using h4)]
          rfl

/-- C8: the permissive mark detector `nonempty_mark` returns false exactly
when the cell is absent or a string that is empty or whitespace-only, and
true for every number (including zero), every boolean, and every string with
a non-whitespace character. -/
theorem C8_mark_detector :
    ∀ x : Cell,
      nonempty_mark x = false
        ↔ (x = .absent ∨ ∃ s, x = .str s ∧ ∀ c ∈ s, isWs c = true) := by
  intro x
  cases x with
  | absent => simp [nonempty_mark]
  | num n => simp [nonempty_mark]
  | boolv b => simp [nonempty_mark]
  | str s =>
    constructor
    · intro h
      right
      refine ⟨s, rfl, ?_⟩
      rw [← pyStrip_eq_nil_iff]
      have hb : (pyStrip s).isEmpty = true := by
        cases he : (pyStrip s).isEmpty
        · rw [nonempty_mark, he] at h
          cases h
        · rfl
      exact List.isEmpty_iff.mp hb
    · intro h
      rcases h with h | ⟨s2, hs2, hws⟩
      · cases h
      · obtain ⟨rfl⟩ : s2 = s := by
          injection hs2.symm
        rw [nonempty_mark]
        have : pyStrip s = [] := pyStrip_eq_nil_iff.mpr hws
        rw [this]
        rfl

/-- The partition property claimed for day blocks: every block is a valid
half-open range, blocks are contiguous, ordered and pairwise disjoint, the
first block starts at the first day-start column, the last block ends at the
grid width, and every column from the first day-start column up to the grid
width is covered by exactly the blocks (each block also stays inside that
interval). -/
def blocksPartitionOK (w : Nat) (l : List (Nat × Str)) : Prop :=
  (∀ b ∈ spans w l, b.1.1 < b.1.2)
  ∧ List.Chain' (fun a b => a.1.2 = b.1.1) (spans w l)
  ∧ (spans w l).Pairwise (fun a b => a.1.2 ≤ b.1.1)
  ∧ ((spans w l).map (fun b => b.1.1)).head? = (l.map (·.1)).head?
  ∧ (spans w l).getLast?.map (fun b => b.1.2) = some w
  ∧ (∀ c0 ∈ (l.map (·.1)).head?, ∀ c, c0 ≤ c → c < w →
      ∃ b ∈ spans w l, b.1.1 ≤ c ∧ c < b.1.2)
  ∧ (∀ c0 ∈ (l.map (·.1)).head?, ∀ b ∈ spans w l, c0 ≤ b.1.1 ∧ b.1.2 ≤ w)

theorem spans_partition (w : Nat) (l : List (Nat × Str))
    (hp : l.Pairwise (fun a b => a.1 < b.1)) (hb : ∀ p ∈ l, p.1 < w)
    (hne : l ≠ []) : blocksPartitionOK w l := by
  obtain ⟨x, t, hx⟩ := List.exists_cons_of_ne_nil hne
  obtain ⟨c0, d0⟩ := x
  refine ⟨spans_lt hp hb, spans_chain l, spans_pairwise_disjoint hp, ?_, spans_last hne,
    ?_, ?_⟩
  · rw [spans_starts]
  · intro c0m hc0m c hc hcw
    have hh : (l.map (·.1)).head? = some c0 := by rw [hx]; rfl
    rw [hh] at hc0m
    simp only [Option.mem_def, Option.some.injEq] at hc0m
    subst hc0m
    exact spans_cover hx c hc hcw
  · intro c0m hc0m b hbm
    have hh : (l.map (·.1)).head? = some c0 := by rw [hx]; rfl
    rw [hh] at hc0m
    simp only [Option.mem_def, Option.some.injEq] at hc0m
    subst hc0m
    exact spans_within hx hp hb b hbm

/-- C5: for every grid with at least one day-start column (in either the
fuzzy or the strict variant), the day blocks derived from the sorted
day-start columns are disjoint, ordered, contiguous half-open column ranges
with start < end whose union covers exactly the interval from the first
day-start column to the grid width, the last block extending to the grid's
column count. -/
theorem C5_day_blocks_partition :
    ∀ (g : Grid) (dayRow : Nat),
      (dayStartsSorted g dayRow ≠ [] →
        blocksPartitionOK (width g) (dayStartsSorted g dayRow))
      ∧ (dayStartsStrict g dayRow ≠ [] →
        blocksPartitionOK (width g) (dayStartsStrict g dayRow)) := by
  intro g dayRow
  constructor
  · intro hne
    rw [dayStartsSorted_eq] at hne ⊢
    exact spans_partition _ _ (dayStartsRaw_pairwise g dayRow) (dayStartsRaw_bound g dayRow) hne
  · intro hne
    rw [dayStartsStrict_eq] at hne ⊢
    exact spans_partition _ _ (dayStartsStrictRaw_pairwise g dayRow)
      (dayStartsStrictRaw_bound g dayRow) hne

/-- C5 witness: the partition property holds at a concrete fuzzy grid with
two day-start columns and at a concrete strict grid with one. -/
theorem C5_witness :
    blocksPartitionOK (width gDup) (dayStartsSorted gDup 0)
    ∧ blocksPartitionOK (width gGood) (dayStartsStrict gGood 8) :=
  ⟨(C5_day_blocks_partition gDup 0).1 (by decide),
   (C5_day_blocks_partition gGood 8).2 (by decide)⟩

/-- C7: for every day block whose Attendance columns contain no marked cell
over the student row range but in which at least one meal column is marked on
some student row, with `assume_attendance_if_any_meal` enabled the computed
attendance equals the count of student rows where any of the block's meal
columns is marked and is at least 1 (and every emitted record carries it);
with the option disabled it is 0 (and every emitted record carries 0). -/
theorem C7_attendance_inference (g : Grid) (s e : Nat) (day : Str)
    (cols : List (Nat × MealLabel))
    (h1 : ∀ a ∈ attColsOf cols, countMarks g s e a = 0)
    (h2 : ∃ c ∈ mealColsOf cols, ∃ r ∈ rowIdxs s e, nonempty_mark (cellAt g r c) = true) :
    attPresent g s e cols true = anyMealCount g s e (mealColsOf cols)
    ∧ 1 ≤ attPresent g s e cols true
    ∧ attPresent g s e cols false = 0
    ∧ (∀ rec ∈ blockRecords g s e day cols true,
        rec.att = anyMealCount g s e (mealColsOf cols))
    ∧ (∀ rec ∈ blockRecords g s e day cols false, rec.att = 0) := by
  obtain ⟨hA, hB, hC⟩ := attPresent_of_blank_att g s e cols h1 h2
  refine ⟨hA, hB, hC, ?_, ?_⟩
  · intro rec hrec
    rw [blockRecords_eq_map, List.mem_map] at hrec
    obtain ⟨p, _, hpe⟩ := hrec
    rw [← hpe]
    exact hA
  · intro rec hrec
    rw [blockRecords_eq_map, List.mem_map] at hrec
    obtain ⟨p, _, hpe⟩ := hrec
    rw [← hpe]
    exact hC

/-- A 1-row grid with a blank attendance column 1 and a marked meal column 2. -/
def gBlankAtt : Grid := [[.absent, .absent, .str (toL "X")]]

/-- C7 witness: on a concrete block with a blank attendance column and one
marked meal cell, enabling the option yields attendance 1 and disabling it
yields 0. -/
theorem C7_witness :
    attPresent gBlankAtt 0 0 [(1, .At), (2, .B)] true
        = anyMealCount gBlankAtt 0 0 (mealColsOf [(1, .At), (2, .B)])
    ∧ 1 ≤ attPresent gBlankAtt 0 0 [(1, .At), (2, .B)] true
    ∧ attPresent gBlankAtt 0 0 [(1, .At), (2, .B)] false = 0 := by
  obtain ⟨hA, hB, hC, _, _⟩ :=
    C7_attendance_inference gBlankAtt 0 0 (toL "Mon") [(1, .At), (2, .B)]
      (by decide) (by decide)
  exact ⟨hA, hB, hC⟩

/-- C10: within a block, only the first (leftmost, as the label list is
sorted by column) Attendance column determines the attendance figure — two
blocks agreeing on their first Attendance column and on their meal-labelled
entries produce identical records in both variants — every emitted record of
a block carries that one attendance figure, and under the column-sorted
invariant the first attendance column is the minimum. -/
theorem C10_leftmost_attendance (g : Grid) (s e : Nat) (day : Str) (flag : Bool)
    (cols cols' : List (Nat × MealLabel))
    (hatt : (attColsOf cols).head? = (attColsOf cols').head?)
    (hmeal : mealEntriesOf cols = mealEntriesOf cols') :
    blockRecords g s e day cols flag = blockRecords g s e day cols' flag
    ∧ blockRecordsStrict g s e day cols = blockRecordsStrict g s e day cols'
    ∧ (∀ rec ∈ blockRecords g s e day cols flag, rec.att = attPresent g s e cols flag)
    ∧ (∀ rec ∈ blockRecordsStrict g s e day cols, rec.att = attMarkedStrict g s e cols)
    ∧ (cols.Pairwise (fun a b => a.1 ≤ b.1) →
        ∀ a ∈ attColsOf cols, ∀ h0 ∈ (attColsOf cols).head?, h0 ≤ a) := by
  have hmc : mealColsOf cols = mealColsOf cols' := by
    rw [mealColsOf_eq_map, mealColsOf_eq_map, hmeal]
  refine ⟨?_, ?_, ?_, ?_, ?_⟩
  · rw [blockRecords_eq_map, blockRecords_eq_map, hmeal,
        attPresent_congr g s e flag cols cols' hatt hmc]
  · rw [blockRecordsStrict_eq_map, blockRecordsStrict_eq_map, hmeal,
        attMarkedStrict_congr g s e cols cols' hatt]
  · intro rec hrec
    rw [blockRecords_eq_map, List.mem_map] at hrec
    obtain ⟨p, _, hpe⟩ := hrec
    rw [← hpe]
  · intro rec hrec
    rw [blockRecordsStrict_eq_map, List.mem_map] at hrec
    obtain ⟨p, _, hpe⟩ := hrec
    rw [← hpe]
  · intro hsort
    exact attColsOf_sorted_head_min hsort

/-- A 1-row grid used to witness the leftmost-attendance behavior. -/
def gTwoAtt : Grid :=
  [[.absent, .str (toL "X"), .str (toL "Y"), .absent, .absent, .absent, .absent, .absent,
    .absent, .absent]]

/-- C10 witness: moving a non-leftmost Attendance column (from column 3 to
column 9) does not change the records of the block. -/
theorem C10_witness :
    blockRecords gTwoAtt 0 0 (toL "Mon") [(1, .At), (3, .At), (2, .B)] true
      = blockRecords gTwoAtt 0 0 (toL "Mon") [(1, .At), (9, .At), (2, .B)] true
    ∧ blockRecordsStrict gTwoAtt 0 0 (toL "Mon") [(1, .At), (3, .At), (2, .B)]
      = blockRecordsStrict gTwoAtt 0 0 (toL "Mon") [(1, .At), (9, .At), (2, .B)] := by
  obtain ⟨hA, hB, _, _, _⟩ :=
    C10_leftmost_attendance gTwoAtt 0 0 (toL "Mon") true
      [(1, .At), (3, .At), (2, .B)] [(1, .At), (9, .At), (2, .B)]
      (by decide) (by decide)
  exact ⟨hA, hB⟩

/-- C4 (amended): the fuzzy day-row scan returns the minimum row index below
`min 80 height` whose row holds at least 2 day tokens, failing exactly when
no such row exists in that range; the STRICT scan instead searches rows from
8 up to `min 60 height` and returns the first row holding at least one
string cell whose stripped value ends with a period, failing exactly when no
such row exists in that range. -/
theorem C4_amended_day_row (g : Grid) :
    (∀ r, findDayRowFuzzy g = some r →
        r < min 80 (height g) ∧ fuzzyDayRowPred g r = true
          ∧ ∀ j, j < r → fuzzyDayRowPred g j = false)
    ∧ (findDayRowFuzzy g = none ↔ ∀ j, j < min 80 (height g) → fuzzyDayRowPred g j = false)
    ∧ (∀ r, findDayRowStrict g = some r →
        8 ≤ r ∧ r < min 60 (height g) ∧ strictDayRowPred g r = true
          ∧ ∀ j, j < r → 8 ≤ j → strictDayRowPred g j = false)
    ∧ (findDayRowStrict g = none
        ↔ ∀ j, j < min 60 (height g) → 8 ≤ j → strictDayRowPred g j = false) := by
  refine ⟨?_, ?_, ?_, ?_⟩
  · intro r h
    obtain ⟨h1, h2, h3, h4⟩ := findFrom_some h
    exact ⟨by omega, h3, fun j hj => h4 j hj (Nat.zero_le _)⟩
  · unfold findDayRowFuzzy
    rw [findFrom_none]
    constructor
    · intro h j hj
      exact h j (by omega) (Nat.zero_le _)
    · intro h j hj _
      exact h j (by omega)
  · intro r h
    obtain ⟨h1, h2, h3, h4⟩ := findFrom_some h
    exact ⟨h1, by omega, h3, fun j hj1 hj2 => h4 j hj1 hj2⟩
  · unfold findDayRowStrict
    rw [findFrom_none]
    constructor
    · intro h j hj1 hj2
      exact h j (by omega) hj2
    · intro h j hj1 hj2
      exact h j (by omega) hj2

/-- C4 counterexample: on `gLateDays`, row 0 already holds two day tokens
(and two period-terminated strings), yet the strict scan — which starts only
at row 8 and needs just one period-terminated string — returns row 9. -/
theorem C4_counterexample :
    fuzzyDayRowPred gLateDays 0 = true
    ∧ strictDayRowPred gLateDays 0 = true
    ∧ (0 : Nat) < min 60 (height gLateDays)
    ∧ findDayRowStrict gLateDays = some 9
    ∧ findDayRowStrict gLateDays ≠ some 0 := by decide

/-- C4 witness: the amended characterization evaluated on `gNarrow`, where the
fuzzy scan returns row 0. -/
theorem C4_witness :
    0 < min 80 (height gNarrow) ∧ fuzzyDayRowPred gNarrow 0 = true :=
  ⟨((C4_amended_day_row gNarrow).1 0 (by decide)).1,
   ((C4_amended_day_row gNarrow).1 0 (by decide)).2.1⟩

/-- C3 (amended): from `start_row`, the first mostly-empty row `r` at or after
it determines `end_row = r - 1` when `r > start_row`; when the first
mostly-empty row is `start_row` itself the fallback
`min(start_row + bound, height - 1)` applies; and when NO mostly-empty row
exists in the sheet, `end_row` stays `start_row` (not the fallback the
original claim states). -/
theorem C3_amended_end_row (g : Grid) (s bound : Nat) :
    ((∀ r, r < height g → s ≤ r → mostlyEmpty g r = false) → findEndRow g s bound = s)
    ∧ (∀ r, s < r → r < height g → mostlyEmpty g r = true →
        (∀ j, j < r → s ≤ j → mostlyEmpty g j = false) →
        findEndRow g s bound = r - 1)
    ∧ (s < height g → mostlyEmpty g s = true →
        findEndRow g s bound = min (s + bound) (height g - 1)) := by
  refine ⟨?_, ?_, ?_⟩
  · intro h
    unfold findEndRow
    have hn : findFrom (fun r => mostlyEmpty g r) s (height g - s) = none :=
      findFrom_none.mpr (fun j h1 h2 => h j (by omega) h2)
    rw [hn]
  · intro r hr1 hr2 hr3 hr4
    unfold findEndRow
    have hs : findFrom (fun r => mostlyEmpty g r) s (height g - s) = some r :=
      findFrom_first (by omega) (by omega) hr3 hr4
    rw [hs]
    show (if (r : Int) - 1 < (s : Int) then min (s + bound) (height g - 1) else r - 1) = r - 1
    have hcond : ¬((r : Int) - 1 < (s : Int)) := by omega
    rw [if_neg hcond]
  · intro hsh hm
    unfold findEndRow
    have hs : findFrom (fun r => mostlyEmpty g r) s (height g - s) = some s :=
      findFrom_first (Nat.le_refl _) (by omega) hm (fun j hj1 hj2 => by omega)
    rw [hs]
    show (if (s : Int) - 1 < (s : Int) then min (s + bound) (height g - 1) else s - 1)
        = min (s + bound) (height g - 1)
    have hcond : ((s : Int) - 1 < (s : Int)) := by omega
    rw [if_pos hcond]

/-- C3 counterexample: on `gNarrow` student-row detection succeeds with
start row 2 and no row of the sheet is mostly empty (the sheet is only 6
columns wide), yet `end_row` is 2 — not the fallback
`min(start_row + 60, height - 1) = 4` the claim requires. -/
theorem C3_counterexample :
    findDayRowFuzzy gNarrow = some 0
    ∧ findLabelRow gNarrow 0 = some 1
    ∧ findStartRowFuzzy gNarrow 1 = some 2
    ∧ ((List.range (height gNarrow)).all fun r => !mostlyEmpty gNarrow r) = true
    ∧ findEndRow gNarrow 2 60 = 2
    ∧ 2 ≠ min (2 + 60) (height gNarrow - 1) := by decide

/-- C3 witness: the no-mostly-empty-row case of the amended characterization
evaluated on `gNarrow`. -/
theorem C3_witness : findEndRow gNarrow 2 60 = 2 :=
  (C3_amended_end_row gNarrow 2 60).1 (by decide)

theorem match_option_id {α : Type} (o : Option α) (z : Option α) (hz : z = none) :
    (match o with | some v => some v | none => z) = o := by
  cases o
  · exact hz
  · rfl

/-- C1 (amended): a duplicate day name yields a second day-start column and a
second labelled block, but the `blocks` dict is keyed by the canonical day
name, so its keys are duplicate-free and looking a day name up returns the
labels of the LAST labelled block with that name — the earlier duplicate
block is overwritten, in both the fuzzy and the strict variant. -/
theorem C1_amended_duplicate_days (g : Grid) (dayRow labelRow : Nat) (d : Str) :
    ((blocksOf g dayRow labelRow).map Prod.fst).Nodup
    ∧ ((blocksStrict g dayRow labelRow).map Prod.fst).Nodup
    ∧ dictLookup (blocksOf g dayRow labelRow) d
        = findLast (labeledBlocks g dayRow labelRow) d
    ∧ dictLookup (blocksStrict g dayRow labelRow) d
        = findLast (labeledBlocksStrict g dayRow labelRow) d := by
  refine ⟨?_, ?_, ?_, ?_⟩
  · rw [blocksOf_eq_fold]
    exact foldl_upsert_keys_nodup _ [] (by simp)
  · rw [blocksStrict_eq_fold]
    exact foldl_upsert_keys_nodup _ [] (by simp)
  · rw [blocksOf_eq_fold, dictLookup_foldl_upsert]
    exact match_option_id _ _ rfl
  · rw [blocksStrict_eq_fold, dictLookup_foldl_upsert]
    exact match_option_id _ _ rfl

/-- C1 counterexample: on `gDup` the day row holds two day tokens that both
canonicalize to "Mon" and both carry labels, so there are two day-start
columns and two labelled blocks — but `blocks` keeps a single entry (the
later block's labels) and aggregation emits records for that block only,
not for both. -/
theorem C1_counterexample :
    (dayStartsSorted gDup 0).length = 2
    ∧ shortDay (toL "Mon.") = toL "Mon"
    ∧ (labeledBlocks gDup 0 1).length = 2
    ∧ blocksOf gDup 0 1 = [(toL "Mon", [(4, .B)])]
    ∧ parse_sheet_fuzzy true gDup = .ok [⟨toL "Mon", .B, 0, 0⟩] := by
  refine ⟨by decide, by decide, by decide, by decide, by rfl⟩

/-- Every nonzero-width zero-padded field is at least as long as its width. -/
theorem padNat_length_ge (k n : Nat) : k ≤ (padNat k n).length := by
  unfold padNat
  rw [List.length_append, List.length_replicate]
  omega

/-- The month string of a parsed week start is never the NaT marker (it is at
least seven characters long). -/
theorem monthKey_some_ne_nat (d : PDate) : monthKey (some d) ≠ toL "NaT" := by
  intro h
  have h4 := padNat_length_ge 4 d.y
  have h2 := padNat_length_ge 2 d.m
  have hlen := congrArg List.length h
  rw [monthKey, List.length_append, List.length_append] at hlen
  have hdash : (toL "-").length = 1 := rfl
  have hnat : (toL "NaT").length = 3 := rfl
  rw [hdash, hnat] at hlen
  omega

/-- Every `(Campus, Month)` key on the KPI side of the dashboards comes from
a record whose Week string parsed, so its month is never "NaT". -/
theorem kpiMonthKeys_no_nat (rs : List SRec) :
    (∀ k ∈ kpiMonthKeys rs, k.2 ≠ toL "NaT")
    ∧ (∀ k ∈ kpiMonthWeekKeys rs, k.2.1 ≠ toL "NaT") := by
  have hmonth : ∀ p ∈ dailyOkRows rs, p.1.month ≠ toL "NaT" := by
    intro p hp
    unfold dailyOkRows at hp
    rw [List.mem_map] at hp
    obtain ⟨k, hk, hke⟩ := hp
    rw [List.mem_dedup, List.mem_map] at hk
    obtain ⟨q, hq, hqe⟩ := hk
    unfold kpiRows at hq
    rw [List.mem_filter] at hq
    obtain ⟨_, hqsome⟩ := hq
    rw [Option.isSome_iff_exists] at hqsome
    obtain ⟨d, hd⟩ := hqsome
    have hpm : p.1.month = monthOf q := by
      rw [← hke]
      show k.month = monthOf q
      rw [← hqe]
      rfl
    rw [hpm]
    unfold monthOf
    rw [hd]
    exact monthKey_some_ne_nat d
  constructor
  · intro k hk
    unfold kpiMonthKeys at hk
    rw [List.mem_dedup, List.mem_map] at hk
    obtain ⟨p, hp, hpe⟩ := hk
    have := hmonth p hp
    rw [← hpe]
    intro he
    exact this (by simpa using he)
  · intro k hk
    unfold kpiMonthWeekKeys at hk
    rw [List.mem_dedup, List.mem_map] at hk
    obtain ⟨p, hp, hpe⟩ := hk
    have := hmonth p hp
    rw [← hpe]
    intro he
    exact this (by simpa using he)

/-- C2 (amended): a record whose Week string does not parse is retained in
the flat `Summary_All` table; it is dropped from the KPI groupby (pandas
drops NaT `WeekStart` group keys), so the KPI side never produces a "NaT"
month bucket; but when the record is a missing-recording (Issue) row it DOES
contribute to the rollup tables, under the literal month bucket "NaT" of both
`Dashboard_Month` and `Dashboard_Month_Week`, where it is counted among the
missing-meal recordings — it is not excluded from the monthly rollup. -/
theorem C2_amended_unknown_week (rs : List SRec) (r : SRec)
    (hmem : r ∈ rs) (hweek : weekParse r.week = none) :
    (r, none, toL "NaT") ∈ flatTable rs
    ∧ (r.issue = true →
        (r.campus, toL "NaT") ∈ dashMonthKeys rs
        ∧ 1 ≤ missCountMonth rs (r.campus, toL "NaT")
        ∧ (r.campus, toL "NaT", r.week) ∈ dashMonthWeekKeys rs
        ∧ 1 ≤ missCountMonthWeek rs (r.campus, toL "NaT", r.week))
    ∧ (∀ k ∈ kpiMonthKeys rs, k.2 ≠ toL "NaT")
    ∧ (∀ k ∈ kpiMonthWeekKeys rs, k.2.1 ≠ toL "NaT") := by
  have hmonth : monthOf r = toL "NaT" := by
    unfold monthOf
    rw [hweek]
    rfl
  refine ⟨?_, ?_, (kpiMonthKeys_no_nat rs).1, (kpiMonthKeys_no_nat rs).2⟩
  · unfold flatTable
    have he : (r, weekParse r.week, monthOf r) = (r, none, toL "NaT") := by
      rw [hweek, hmonth]
    rw [← he]
    exact List.mem_map_of_mem _ hmem
  · intro hissue
    have hmiss : r ∈ missRows rs := by
      unfold missRows
      rw [List.mem_filter]
      exact ⟨hmem, hissue⟩
    have hck : cmKey r = (r.campus, toL "NaT") := by
      unfold cmKey
      rw [hmonth]
    have hcwk : cmwKey r = (r.campus, toL "NaT", r.week) := by
      unfold cmwKey
      rw [hmonth]
    have hmm : (r.campus, toL "NaT") ∈ (missRows rs).map cmKey := by
      rw [← hck]
      exact List.mem_map_of_mem _ hmiss
    have hmw : (r.campus, toL "NaT", r.week) ∈ (missRows rs).map cmwKey := by
      rw [← hcwk]
      exact List.mem_map_of_mem _ hmiss
    refine ⟨?_, ?_, ?_, ?_⟩
    · unfold dashMonthKeys
      rw [List.mem_dedup, List.mem_append]
      left
      unfold missMonthKeys
      rw [List.mem_dedup]
      exact hmm
    · exact List.count_pos_iff.mpr hmm
    · unfold dashMonthWeekKeys
      rw [List.mem_dedup, List.mem_append]
      left
      unfold missMonthWeekKeys
      rw [List.mem_dedup]
      exact hmw
    · exact List.count_pos_iff.mpr hmw

/-- C2 counterexample: a concrete missing-recording record with the
unparsable Week string "Unknown Week" is retained in the flat table AND lands
in the "NaT" month bucket of both rollup tables, where it is even counted as
a missing-meal recording — the claim says it contributes to no Month bucket. -/
theorem C2_counterexample :
    weekParse (toL "Unknown Week") = none
    ∧ flatTable [recUnparsable] = [(recUnparsable, none, toL "NaT")]
    ∧ dashMonthKeys [recUnparsable] = [(toL "CampusA", toL "NaT")]
    ∧ missCountMonth [recUnparsable] (toL "CampusA", toL "NaT") = 1
    ∧ dashMonthWeekKeys [recUnparsable] = [(toL "CampusA", toL "NaT", toL "Unknown Week")]
    ∧ missCountMonthWeek [recUnparsable] (toL "CampusA", toL "NaT", toL "Unknown Week") = 1 := by
  decide

/-- A missing-recording record with an unparsable week string, for the C2
witness. -/
def recW : SRec :=
  ⟨toL "CampusB", toL "C2", toL "week unknown", toL "Tue", .L, 0, 3, true⟩

/-- C2 witness: the amended claim evaluated at a concrete record list. -/
theorem C2_witness :
    (recW, none, toL "NaT") ∈ flatTable [recW]
    ∧ (toL "CampusB", toL "NaT") ∈ dashMonthKeys [recW]
    ∧ 1 ≤ missCountMonth [recW] (toL "CampusB", toL "NaT")
    ∧ (toL "CampusB", toL "NaT", toL "week unknown") ∈ dashMonthWeekKeys [recW]
    ∧ 1 ≤ missCountMonthWeek [recW] (toL "CampusB", toL "NaT", toL "week unknown") := by
  obtain ⟨h1, h2, _, _⟩ := C2_amended_unknown_week [recW] recW (by decide) (by decide)
  obtain ⟨h2a, h2b, h2c, h2d⟩ := h2 (by decide)
  exact ⟨h1, h2a, h2b, h2c, h2d⟩

/-- A one-cell sheet: fewer than 30 rows but at least one column, so the
strict parser's metadata loop reads out of bounds and raises. -/
def gShort : Grid := [[.str (toL "x")]]

/-- C9 (amended): `build_all` (fuzzy) processes every sheet independently and
never aborts: it records one debug entry per sheet — an ERROR entry carrying
the failure reason for every failing sheet — and accumulates the records of
the remaining sheets.  `build_report` (strict) silently skips a sheet whose
parse returns None, with no diagnostic of any kind, and is per-sheet
compositional only when no sheet makes the strict parser raise; a sheet on
which the unguarded cell reads raise IndexError aborts the ENTIRE batch,
losing every sheet's records. -/
theorem C9_amended_per_sheet_isolation (flag : Bool) (sheets : List (Str × Grid)) :
    build_all flag sheets
        = (sheets.flatMap (sheetRecords flag), sheets.map (sheetDebug flag))
    ∧ ((∀ sg ∈ sheets, parse_sheet_strict sg.2 ≠ .crash) →
        buildReportRecords sheets = some (sheets.flatMap sheetSRecs))
    ∧ (∀ pre post (sg : Str × Grid), sheets = pre ++ sg :: post →
        parse_sheet_strict sg.2 = .crash → buildReportRecords sheets = none)
    ∧ (∀ (n : Str) (gr : Grid) (e : Str), parse_sheet_fuzzy flag gr = .error e →
        sheetDebug flag (n, gr) = .errE n e ∧ sheetRecords flag (n, gr) = []) := by
  refine ⟨build_all_eq flag sheets, buildReportRecords_no_crash sheets, ?_, ?_⟩
  · intro pre post sg hsplit hcrash
    rw [hsplit]
    exact buildReport_aborts pre post sg hcrash
  · intro n gr e he
    unfold sheetDebug sheetRecords
    rw [he]
    exact ⟨rfl, rfl⟩

/-- C9 counterexample: the strict driver `build_report` leaves no trace of a
sheet that fails to parse — its output on a workbook with failing sheet "A"
and good sheet "B" is identical to its output without "A", so the failure is
never recorded as a diagnostic; worse, a sheet with fewer than 30 rows makes
the strict parser raise and the whole batch abort, so sheet "B"'s records are
lost entirely — the batch does not survive that sheet's failure. -/
theorem C9_counterexample :
    parse_sheet_strict gBad = .failed
    ∧ buildReportRecords [(toL "A", gBad), (toL "B", gGood)]
        = buildReportRecords [(toL "B", gGood)]
    ∧ buildReportRecords [(toL "B", gGood)]
        = some [⟨toL "Unknown Campus", toL "Unknown Class", toL "Unknown Week",
                 toL "Mon", .B, 1, 1, false⟩]
    ∧ parse_sheet_strict gShort = .crash
    ∧ buildReportRecords [(toL "A", gShort), (toL "B", gGood)] = none := by
  refine ⟨by rfl, by rfl, by rfl, by rfl, by rfl⟩

/-- C9 witness: the amended claim's conjuncts evaluated concretely — the
no-crash composition on a one-good-sheet workbook, the abort on a crashing
sheet, and the diagnostic entry for a sheet the fuzzy parser rejects. -/
theorem C9_witness :
    buildReportRecords [(toL "B", gGood)] = some ([(toL "B", gGood)].flatMap sheetSRecs)
    ∧ buildReportRecords [(toL "A", gShort)] = none
    ∧ sheetDebug true (toL "A", gBad) = .errE (toL "A") (toL "No day row found")
    ∧ sheetRecords true (toL "A", gBad) = [] :=
  ⟨(C9_amended_per_sheet_isolation true [(toL "B", gGood)]).2.1 (by decide),
   (C9_amended_per_sheet_isolation true [(toL "A", gShort)]).2.2.1 [] [] (toL "A", gShort)
     rfl (by rfl),
   ((C9_amended_per_sheet_isolation true []).2.2.2 (toL "A") gBad (toL "No day row found")
     (by rfl)).1,
   ((C9_amended_per_sheet_isolation true []).2.2.2 (toL "A") gBad (toL "No day row found")
     (by rfl)).2⟩
